import Mathlib

/-!
Verification development for a Rust-subset compiler written in Python
(lexer, canonical-LR(1) table generator, syntax-directed semantic analyzer
emitting quadruple IR, and a MIPS code generator).

Each component relevant to the checked claims is shallowly embedded as
executable Lean definitions, translated clause by clause from the Python
source files (src/lexer/lexer.py, src/lexparser/lexparser.py,
src/semantic/semantic.py, src/codegen/codegen.py).  Python dictionaries are
modelled as insertion-ordered association lists, Python sets of small
machine integers as strictly increasing lists (CPython iterates a set of
distinct small non-negative integers below the hash-table size in
increasing order, which is the only set-iteration order the embedded
instances exercise), exceptions as `Except`, and `None` as option values.
-/

namespace Sem

/-- Operand of a quadruple: in the Python code an operand is an int, a
string (variable, temporary or label name), or `None`. -/
inductive Operand where
  | intVal (n : Int)
  | strVal (s : String)
  | noneVal
  deriving DecidableEq, Repr

/-- Quadruple `(op, arg1, arg2, result)` as built by `Quadruple.__init__`. -/
structure Quad where
  op : String
  arg1 : Operand
  arg2 : Operand
  result : Operand
  deriving DecidableEq, Repr

/-- SymbolType enum from semantic.py. -/
inductive SymbolType where
  | VARIABLE
  | FUNCTION
  | PARAMETER
  | ARRAY
  | TUPLE
  | REFERENCE
  deriving DecidableEq, Repr

/-- Data types as the analyzer represents them: the Python code uses the
strings "i32", "void", "unknown_inferred", lists for references and
arrays, and tuples for tuple types. -/
inductive DataType where
  | i32
  | void
  | unknownInferred
  | ref (isMut : Bool) (inner : DataType)
  | array (elem : DataType) (len : Nat)
  | tup (elems : List DataType)
  deriving Repr

mutual

/-- get_type_name from semantic.py: the canonical spelling of a type. -/
def typeName : DataType → String
  | .i32 => "i32"
  | .void => "void"
  | .unknownInferred => "unknown_inferred"
  | .ref false t => "&" ++ typeName t
  | .ref true t => "&mut " ++ typeName t
  | .array t n => "[" ++ typeName t ++ "; " ++ toString n ++ "]"
  | .tup ts => "(" ++ String.intercalate ", " (typeNameList ts) ++ ")"

/-- Spellings of a list of types, in order. -/
def typeNameList : List DataType → List String
  | [] => []
  | t :: r => typeName t :: typeNameList r

end

/-- Test used by the Python comparisons `type1 == "unknown_inferred"`. -/
def DataType.isUnknown : DataType → Bool
  | .unknownInferred => true
  | _ => false

/-- Test used by the Python comparisons `type2 == "void"`. -/
def DataType.isVoid : DataType → Bool
  | .void => true
  | _ => false

/-- check_type_compatibility from semantic.py (lines 158-194).  The
`allow_ref_deref` block in the source has no effect (its only branch is
`pass`), so it is omitted. -/
def checkTypeCompat (t1 t2 : DataType) : Except String Unit :=
  if typeName t1 = typeName t2 then .ok ()
  else if t1.isUnknown then
    if t2.isVoid then .error "Cannot assign a void value to a variable whose type is to be inferred."
    else .ok ()
  else if t2.isVoid && !t1.isVoid then .error "Cannot assign a void value."
  else .error "Type mismatch."

/-- SymbolTableEntry from semantic.py.  `active_borrows` is the pair of
counters (mutable, immutable), both initialized to zero. -/
structure SymbolTableEntry where
  name : String
  symType : SymbolType
  dataType : DataType
  scopeLevel : Nat
  isMutable : Bool := false
  initialized : Bool := true
  lineDeclared : Int := -1
  borrowsMut : Nat := 0
  borrowsImm : Nat := 0

/-- One scope frame: a Python dict name -> entry, modelled as an
insertion-ordered association list. -/
abbrev Scope := List (String × SymbolTableEntry)

/-- Python dict assignment `scope[name] = entry`: update in place if the
key exists, else append. -/
def scopeSet (s : Scope) (k : String) (v : SymbolTableEntry) : Scope :=
  match s with
  | [] => [(k, v)]
  | (k0, v0) :: r => if k0 = k then (k0, v) :: r else (k0, v0) :: scopeSet r k v

/-- Python `name in scope` membership test. -/
def scopeHas (s : Scope) (k : String) : Bool :=
  s.any (fun p => p.1 = k)

/-- Python `scope.get(name)` lookup. -/
def scopeGet (s : Scope) (k : String) : Option SymbolTableEntry :=
  match s with
  | [] => Option.none
  | (k0, v0) :: r => if k0 = k then some v0 else scopeGet r k

/-- Apply a field mutation to the entry stored under `k`, if present. -/
def scopeUpdate (s : Scope) (k : String) (f : SymbolTableEntry → SymbolTableEntry) : Scope :=
  match s with
  | [] => []
  | (k0, v0) :: r => if k0 = k then (k0, f v0) :: r else (k0, v0) :: scopeUpdate r k f

/-- The stack of scope frames, index 0 global, last innermost, exactly as
`self.symbol_tables` in semantic.py. -/
abbrev Tables := List Scope

/-- Python `name in some frame` over the whole stack. -/
def tablesHas (ts : Tables) (k : String) : Bool :=
  ts.any (fun s => scopeHas s k)

/-- lookup_symbol from semantic.py: scan frames from the innermost (the
last list element) outward. -/
def lookupSymbol (ts : Tables) (k : String) : Option SymbolTableEntry :=
  match ts with
  | [] => Option.none
  | s :: rest =>
    match lookupSymbol rest k with
    | some e => some e
    | Option.none => scopeGet s k

/-- Mutate the entry the Python code would have obtained from
lookup_symbol: the innermost frame containing the name. -/
def updateSymbol (ts : Tables) (k : String) (f : SymbolTableEntry → SymbolTableEntry) : Tables :=
  match ts with
  | [] => []
  | s :: rest =>
    if tablesHas rest k then s :: updateSymbol rest k f
    else scopeUpdate s k f :: rest

/-- Loop context pushed on `self.loop_stack`. -/
structure LoopCtx where
  kind : String
  startLabel : String
  endLabel : String
  iterTemp : String := ""
  endTemp : String := ""
  loopVar : String := ""
  isExprLoop : Bool := false
  exprType : DataType := .unknownInferred
  resultPlace : String := ""

/-- Mutable state of SemanticAnalyzer (semantic.py lines 66-73). -/
structure AnalyzerState where
  symbolTables : Tables := [[]]
  currentScopeLevel : Nat := 0
  quadruples : List Quad := []
  tempVarCount : Nat := 0
  labelCount : Nat := 0
  loopStack : List LoopCtx := []

/-- _new_temp: increments the counter and returns `t<k>`. -/
def newTemp (st : AnalyzerState) : String × AnalyzerState :=
  let n := st.tempVarCount + 1
  ("t" ++ toString n, { st with tempVarCount := n })

/-- _new_label: increments the counter and returns `L<k>`. -/
def newLabel (st : AnalyzerState) : String × AnalyzerState :=
  let n := st.labelCount + 1
  ("L" ++ toString n, { st with labelCount := n })

/-- add_quad: appends a quadruple to the accumulator. -/
def addQuad (st : AnalyzerState) (q : Quad) : AnalyzerState :=
  { st with quadruples := st.quadruples ++ [q] }

/-- Attributes of an evaluated expression as the handlers receive them. -/
structure ExprAttrs where
  type : DataType := .i32
  place : Operand := .noneVal
  code : List Quad := []

/-- process_for_loop_begin from semantic.py (lines 1050-1101).  Returns
the local quadruple list and the pushed loop context; every add_quad here
also lands in the global accumulator (none is popped). -/
def processForLoopBegin (loopVarName : String) (rangeStart rangeEnd : ExprAttrs)
    (st : AnalyzerState) : (List Quad × LoopCtx) × AnalyzerState :=
  let (ls, st) := newLabel st
  let (le, st) := newLabel st
  let (iterT, st) := newTemp st
  let (startT, st) := newTemp st
  let (endT, st) := newTemp st
  let q1 : Quad := ⟨"ASSIGN", rangeStart.place, .noneVal, .strVal startT⟩
  let st := addQuad st q1
  let q2 : Quad := ⟨"ASSIGN", rangeEnd.place, .noneVal, .strVal endT⟩
  let st := addQuad st q2
  let q3 : Quad := ⟨"ASSIGN", .strVal startT, .noneVal, .strVal iterT⟩
  let st := addQuad st q3
  let ctx : LoopCtx :=
    { kind := "for", startLabel := ls, endLabel := le,
      iterTemp := iterT, endTemp := endT, loopVar := loopVarName }
  let st := { st with loopStack := ctx :: st.loopStack }
  let q4 : Quad := ⟨"LABEL", .noneVal, .noneVal, .strVal ls⟩
  let st := addQuad st q4
  let (condT, st) := newTemp st
  let q5 : Quad := ⟨"GE", .strVal iterT, .strVal endT, .strVal condT⟩
  let st := addQuad st q5
  let q6 : Quad := ⟨"IF_TRUE", .strVal condT, .noneVal, .strVal le⟩
  let st := addQuad st q6
  let q7 : Quad := ⟨"ASSIGN", .strVal iterT, .noneVal, .strVal loopVarName⟩
  let st := addQuad st q7
  let quads := rangeStart.code ++ [q1] ++ rangeEnd.code ++ [q2] ++ [q3, q4, q5, q6, q7]
  ((quads, ctx), st)

/-- process_for_loop_end from semantic.py (lines 1103-1127).  The arg2 of
the ADD is the Python string "1". -/
def processForLoopEnd (loopData : LoopCtx) (st : AnalyzerState) :
    Except String (List Quad × AnalyzerState) :=
  let (incT, st) := newTemp st
  let q1 : Quad := ⟨"ADD", .strVal loopData.iterTemp, .strVal "1", .strVal incT⟩
  let st := addQuad st q1
  let q2 : Quad := ⟨"ASSIGN", .strVal incT, .noneVal, .strVal loopData.iterTemp⟩
  let st := addQuad st q2
  let q3 : Quad := ⟨"JUMP", .noneVal, .noneVal, .strVal loopData.startLabel⟩
  let st := addQuad st q3
  let q4 : Quad := ⟨"LABEL", .noneVal, .noneVal, .strVal loopData.endLabel⟩
  let st := addQuad st q4
  match st.loopStack with
  | top :: rest =>
    if top.kind = "for" then
      .ok ([q1, q2, q3, q4], { st with loopStack := rest })
    else .error "Mismatched loop structure (for)."
  | [] => .error "Mismatched loop structure (for)."

/-- Attributes of a statement block (only its code is used here). -/
structure BlockAttrs where
  code : List Quad := []

/-- process_for_loop from semantic.py (lines 2669-2694): glue of begin,
body code and end.  It neither opens a scope nor declares the loop
variable in any symbol table. -/
def processForLoop (loopVarName : String) (rangeStart rangeEnd : ExprAttrs)
    (body : BlockAttrs) (st : AnalyzerState) :
    Except String (List Quad × AnalyzerState) :=
  let ((beginQuads, ctx), st) := processForLoopBegin loopVarName rangeStart rangeEnd st
  match processForLoopEnd ctx st with
  | .error e => .error e
  | .ok (endQuads, st) => .ok (beginQuads ++ body.code ++ endQuads, st)

/-- Python list assignment `tables[level][name] = entry`. -/
def tablesSetAt : Tables → Nat → String → SymbolTableEntry → Tables
  | [], _, _, _ => []
  | s :: r, 0, k, v => scopeSet s k v :: r
  | s :: r, Nat.succ n, k, v => s :: tablesSetAt r n k v

/-- add_symbol from semantic.py (lines 98-128): builds an entry at the
current scope level and stores it in the current frame, shadowing by
overwrite.  Fresh entries always carry zero borrow counters. -/
def addSymbol (st : AnalyzerState) (name : String) (symType : SymbolType)
    (dataType : DataType) (line : Int) (isMutable : Bool) (initialized : Bool) :
    SymbolTableEntry × AnalyzerState :=
  let entry : SymbolTableEntry :=
    { name := name, symType := symType, dataType := dataType,
      scopeLevel := st.currentScopeLevel, isMutable := isMutable,
      initialized := initialized, lineDeclared := line }
  (entry,
    { st with symbolTables := tablesSetAt st.symbolTables st.currentScopeLevel name entry })

/-- Attributes produced for `<var_decl_internal>` by
process_variable_decl_internal. -/
structure VarDeclAttrs where
  name : String
  isMutable : Bool
  line : Int

/-- Attributes of an explicit type annotation. -/
structure TypeAttrs where
  type : DataType
  code : List Quad := []

/-- process_variable_declaration from semantic.py (lines 411-444):
declares the variable with `initialized = False` and emits no quadruple
of its own. -/
def processVariableDeclaration (vd : VarDeclAttrs) (typeAttrs : Option TypeAttrs)
    (st : AnalyzerState) : List Quad × AnalyzerState :=
  let varType := match typeAttrs with
    | some ta => ta.type
    | Option.none => DataType.unknownInferred
  let quads := match typeAttrs with
    | some ta => ta.code
    | Option.none => []
  let (_, st) := addSymbol st vd.name .VARIABLE varType vd.line vd.isMutable false
  (quads, st)

/-- Attributes of the left side of an assignment (`<assignable>`). -/
structure AssignableAttrs where
  isLvalue : Bool := false
  name : Option String := Option.none
  place : Operand := .noneVal
  symType : Option SymbolType := Option.none
  isLvalueAddress : Bool := false
  isMutable : Bool := false
  baseIsMutable : Bool := false
  type : Option DataType := Option.none
  code : List Quad := []

/-- process_assignment from semantic.py (lines 447-523).  The quadruple
for the assignment is appended with add_quad and immediately popped back
off the accumulator, so the accumulator is unchanged; on a raised
SemanticError the parser aborts, so the post-error analyzer state is
unobservable and the embedding reports only the error message. -/
def processAssignment (a : AssignableAttrs) (e : ExprAttrs) (st : AnalyzerState) :
    Except String (List Quad × AnalyzerState) :=
  let quads := a.code ++ e.code
  if !a.isLvalue then .error "Cannot assign to non-lvalue."
  else if a.symType = some .VARIABLE || a.symType = some .PARAMETER then
    match a.name with
    | Option.none => .error "KeyError: name"
    | some n =>
      match lookupSymbol st.symbolTables n with
      | Option.none => .error "Variable not declared."
      | some entry =>
        if !entry.isMutable && entry.initialized then
          .error "Cannot assign to immutable variable."
        else
          let inferStep : Except String (DataType × Tables) :=
            if entry.dataType.isUnknown then
              match checkTypeCompat entry.dataType e.type with
              | .error m => .error m
              | .ok () =>
                .ok (e.type,
                  updateSymbol st.symbolTables n fun en => { en with dataType := e.type })
            else .ok (entry.dataType, st.symbolTables)
          match inferStep with
          | .error m => .error m
          | .ok (target, tables1) =>
            let tables2 := updateSymbol tables1 n fun en => { en with initialized := true }
            let q : Quad := ⟨"ASSIGN", e.place, .noneVal, a.place⟩
            let quads := quads ++ [q]
            match checkTypeCompat target e.type with
            | .error m => .error m
            | .ok () => .ok (quads, { st with symbolTables := tables2 })
  else if a.isLvalueAddress then
    let elemCase := a.symType = some .ARRAY || a.symType = some .TUPLE
    if elemCase && !a.baseIsMutable then
      .error "Cannot assign to element of immutable base."
    else if !elemCase && !a.isMutable then
      .error "Cannot assign to content of dereferenced immutable reference."
    else
      match a.type with
      | Option.none => .error "KeyError: type"
      | some target =>
        let q : Quad := ⟨"STORE", e.place, a.place, .noneVal⟩
        let quads := quads ++ [q]
        match checkTypeCompat target e.type with
        | .error m => .error m
        | .ok () => .ok (quads, st)
  else .error "Internal Error: Unhandled LValue structure in assignment."

/-- Attributes of a factor, as consumed by process_reference_op. -/
structure FactorAttrs where
  type : DataType := .i32
  place : Operand := .noneVal
  code : List Quad := []
  isLvalue : Bool := false
  isMutable : Bool := false
  isLvalueAddress : Bool := false
  isTempLvalue : Bool := false
  name : Option String := Option.none

/-- process_reference_op from semantic.py (lines 1273-1370): dereference
and the two reference-taking operators, including the borrow-counter
bookkeeping on named targets. -/
def processReferenceOp (opType : String) (t : FactorAttrs) (st : AnalyzerState) :
    Except String (FactorAttrs × AnalyzerState) :=
  let quads := t.code
  let (resultPlace, st) := newTemp st
  if opType = "*" then
    match t.type with
    | .ref m inner =>
      let q : Quad := ⟨"DEREF", t.place, .noneVal, .strVal resultPlace⟩
      .ok ({ type := inner, place := .strVal resultPlace, code := quads ++ [q],
             isLvalue := true, isMutable := m, isLvalueAddress := true,
             isTempLvalue := true }, st)
    | _ => .error "Cannot dereference non-reference type."
  else if opType = "&" || opType = "&mut" then
    if !t.isLvalue then .error "Cannot take reference of non-lvalue."
    else
      let step : Except String (Bool × Tables) :=
        if t.isTempLvalue then .ok (t.isMutable, st.symbolTables)
        else match t.name with
          | some n =>
            if n ≠ "" then
              match lookupSymbol st.symbolTables n with
              | Option.none => .error "Variable not declared."
              | some entry =>
                if opType = "&mut" then
                  if entry.borrowsImm > 0 || entry.borrowsMut > 0 then
                    .error "Cannot take mutable reference: already borrowed."
                  else
                    .ok (entry.isMutable,
                      updateSymbol st.symbolTables n fun en =>
                        { en with borrowsMut := en.borrowsMut + 1 })
                else
                  if entry.borrowsMut > 0 then
                    .error "Cannot take immutable reference: already mutably borrowed."
                  else
                    .ok (entry.isMutable,
                      updateSymbol st.symbolTables n fun en =>
                        { en with borrowsImm := en.borrowsImm + 1 })
            else
              if opType = "&mut" && !t.isMutable then
                .error "Cannot take mutable reference to an immutable temporary value."
              else .ok (t.isMutable, st.symbolTables)
          | Option.none =>
            if opType = "&mut" && !t.isMutable then
              .error "Cannot take mutable reference to an immutable temporary value."
            else .ok (t.isMutable, st.symbolTables)
      match step with
      | .error m => .error m
      | .ok (targetMut, tables) =>
        if opType = "&mut" && !targetMut then
          .error "Cannot take mutable reference of immutable."
        else
          let q : Quad := ⟨"REF", t.place, .noneVal, .strVal resultPlace⟩
          .ok ({ type := .ref (opType = "&mut") t.type, place := .strVal resultPlace,
                 code := quads ++ [q] }, { st with symbolTables := tables })
  else .error "Unknown reference operation."

/-- Sequencing of reference-taking operations: a raised SemanticError
aborts the enclosing compilation, leaving the analyzer state as it was,
so a failed operation keeps the state unchanged. -/
def applyRefOps : List (String × FactorAttrs) → AnalyzerState → AnalyzerState
  | [], st => st
  | (op, t) :: rest, st =>
    match processReferenceOp op t st with
    | .ok (_, st') => applyRefOps rest st'
    | .error _ => applyRefOps rest st

/-- Number of quadruples having the given operand in result position. -/
def countDest (r : Operand) (qs : List Quad) : Nat :=
  qs.countP fun q => q.result = r

theorem scopeGet_scopeUpdate (s : Scope) (k : String) (f : SymbolTableEntry → SymbolTableEntry) :
    scopeGet (scopeUpdate s k f) k = (scopeGet s k).map f := by
  induction s with
  | nil => simp [scopeUpdate, scopeGet]
  | cons hd tl ih =>
    obtain ⟨k0, v0⟩ := hd
    by_cases h : k0 = k
    · simp [scopeUpdate, scopeGet, h]
    · simp [scopeUpdate, scopeGet, h, ih]

theorem scopeHas_eq_isSome (s : Scope) (k : String) :
    scopeHas s k = (scopeGet s k).isSome := by
  induction s with
  | nil => simp [scopeHas, scopeGet]
  | cons hd tl ih =>
    obtain ⟨k0, v0⟩ := hd
    by_cases h : k0 = k
    · simp [scopeHas, scopeGet, h]
    · simp [scopeHas, scopeGet, h, ← ih, List.any_cons]

theorem tablesHas_eq_isSome (ts : Tables) (k : String) :
    tablesHas ts k = (lookupSymbol ts k).isSome := by
  induction ts with
  | nil => simp [tablesHas, lookupSymbol]
  | cons hd tl ih =>
    simp only [tablesHas, List.any_cons, lookupSymbol]
    cases hlk : lookupSymbol tl k with
    | none =>
      have h2 : tl.any (fun s => scopeHas s k) = false := by
        have h3 := ih; rw [hlk] at h3; simpa [tablesHas] using h3
      simp only [h2, Bool.or_false]
      exact scopeHas_eq_isSome hd k
    | some e =>
      have h2 : tl.any (fun s => scopeHas s k) = true := by
        have h3 := ih; rw [hlk] at h3; simpa [tablesHas] using h3
      simp [h2]

theorem lookup_updateSymbol (ts : Tables) (k : String) (f : SymbolTableEntry → SymbolTableEntry) :
    lookupSymbol (updateSymbol ts k f) k = (lookupSymbol ts k).map f := by
  induction ts with
  | nil => simp [updateSymbol, lookupSymbol]
  | cons hd tl ih =>
    by_cases h : tablesHas tl k
    · have hsome : (lookupSymbol tl k).isSome := by rw [← tablesHas_eq_isSome, h]
      obtain ⟨e, he⟩ := Option.isSome_iff_exists.mp hsome
      simp [updateSymbol, h, lookupSymbol, ih, he]
    · have hnone : lookupSymbol tl k = Option.none := by
        cases hlk : lookupSymbol tl k with
        | none => rfl
        | some e => rw [tablesHas_eq_isSome, hlk] at h; simp at h
      simp [updateSymbol, h, lookupSymbol, hnone, scopeGet_scopeUpdate]

theorem mem_scopeUpdate {s : Scope} {k : String} {f : SymbolTableEntry → SymbolTableEntry}
    {p : String × SymbolTableEntry} (hp : p ∈ scopeUpdate s k f) :
    p ∈ s ∨ ∃ e, scopeGet s k = some e ∧ p = (k, f e) := by
  induction s with
  | nil => simp [scopeUpdate] at hp
  | cons hd tl ih =>
    obtain ⟨k0, v0⟩ := hd
    by_cases h : k0 = k
    · rw [scopeUpdate, if_pos h] at hp
      rcases List.mem_cons.mp hp with hp1 | hp1
      · subst h; right; exact ⟨v0, by simp [scopeGet], by simp [hp1]⟩
      · left; exact List.mem_cons_of_mem _ hp1
    · rw [scopeUpdate, if_neg h] at hp
      rcases List.mem_cons.mp hp with hp1 | hp1
      · left; simp [hp1]
      · rcases ih hp1 with hin | ⟨e, he, hpe⟩
        · left; exact List.mem_cons_of_mem _ hin
        · right; exact ⟨e, by simp [scopeGet, h, he], hpe⟩

theorem mem_updateSymbol {ts : Tables} {k : String} {f : SymbolTableEntry → SymbolTableEntry}
    {s' : Scope} {p : String × SymbolTableEntry}
    (hs : s' ∈ updateSymbol ts k f) (hp : p ∈ s') :
    (∃ s ∈ ts, p ∈ s) ∨ ∃ e, lookupSymbol ts k = some e ∧ p = (k, f e) := by
  induction ts with
  | nil => simp [updateSymbol] at hs
  | cons hd tl ih =>
    by_cases h : tablesHas tl k
    · have hsome : (lookupSymbol tl k).isSome := by rw [← tablesHas_eq_isSome, h]
      obtain ⟨e, he⟩ := Option.isSome_iff_exists.mp hsome
      rw [updateSymbol, if_pos h] at hs
      rcases List.mem_cons.mp hs with hs1 | hs1
      · left; exact ⟨hd, by simp, hs1 ▸ hp⟩
      · rcases ih hs1 with ⟨s0, hs0, hp0⟩ | ⟨e0, he0, hpe0⟩
        · left; exact ⟨s0, List.mem_cons_of_mem _ hs0, hp0⟩
        · right; exact ⟨e0, by simp [lookupSymbol, he0], hpe0⟩
    · have hnone : lookupSymbol tl k = Option.none := by
        cases hlk : lookupSymbol tl k with
        | none => rfl
        | some e => rw [tablesHas_eq_isSome, hlk] at h; simp at h
      rw [updateSymbol, if_neg h] at hs
      rcases List.mem_cons.mp hs with hs1 | hs1
      · subst hs1
        rcases mem_scopeUpdate hp with hin | ⟨e, he, hpe⟩
        · left; exact ⟨hd, by simp, hin⟩
        · right; exact ⟨e, by simp [lookupSymbol, hnone, he], hpe⟩
      · left; exact ⟨s', List.mem_cons_of_mem _ hs1, hp⟩

/-- The borrow-counter invariant of a single symbol table entry. -/
def EntryInv (e : SymbolTableEntry) : Prop :=
  0 < e.borrowsMut → e.borrowsImm = 0

/-- The borrow-counter invariant over a whole stack of scope frames. -/
def TablesInv (ts : Tables) : Prop :=
  ∀ s ∈ ts, ∀ p ∈ s, EntryInv p.2

instance : DecidablePred EntryInv := fun e => by
  unfold EntryInv; infer_instance

instance : DecidablePred TablesInv := fun ts => by
  unfold TablesInv; infer_instance

theorem tablesInv_updateSymbol {ts : Tables} {k : String}
    {f : SymbolTableEntry → SymbolTableEntry} (hinv : TablesInv ts)
    (hf : ∀ e, lookupSymbol ts k = some e → EntryInv (f e)) :
    TablesInv (updateSymbol ts k f) := by
  intro s' hs' p hp
  rcases mem_updateSymbol hs' hp with ⟨s0, hs0, hp0⟩ | ⟨e, he, hpe⟩
  · exact hinv s0 hs0 p hp0
  · rw [hpe]; exact hf e he

theorem refOp_preserves_inv {op : String} {t : FactorAttrs} {st : AnalyzerState}
    {r : FactorAttrs} {st' : AnalyzerState}
    (h : processReferenceOp op t st = .ok (r, st'))
    (hinv : TablesInv st.symbolTables) : TablesInv st'.symbolTables := by
  simp only [processReferenceOp, newTemp] at h
  split at h
  · -- op = "*"
    split at h
    · simp only [Except.ok.injEq, Prod.mk.injEq] at h
      rw [← h.2]
      exact hinv
    · exact absurd h (by simp)
  · split at h
    · -- reference case
      split at h
      · exact absurd h (by simp)
      · -- t is an lvalue; analyze the borrow step
        split at h
        · exact absurd h (by simp)
        · rename_i targetMut tables hstep
          split at h
          · exact absurd h (by simp)
          · simp only [Except.ok.injEq, Prod.mk.injEq] at h
            rw [← h.2]
            -- identify where tables came from
            split at hstep
            · simp only [Except.ok.injEq, Prod.mk.injEq] at hstep
              rw [← hstep.2]; exact hinv
            · split at hstep
              · split at hstep
                · split at hstep
                  · exact absurd hstep (by simp)
                  · rename_i entry hlook
                    split at hstep
                    · split at hstep
                      · exact absurd hstep (by simp)
                      · rename_i hguard
                        simp only [Except.ok.injEq, Prod.mk.injEq] at hstep
                        rw [← hstep.2]
                        apply tablesInv_updateSymbol hinv
                        intro e he
                        rw [hlook] at he
                        cases he
                        simp only [Bool.or_eq_true, decide_eq_true_eq, not_or] at hguard
                        simp only [EntryInv]
                        intro _
                        show entry.borrowsImm = 0
                        omega
                    · split at hstep
                      · exact absurd hstep (by simp)
                      · rename_i hguard
                        simp only [Except.ok.injEq, Prod.mk.injEq] at hstep
                        rw [← hstep.2]
                        apply tablesInv_updateSymbol hinv
                        intro e he
                        rw [hlook] at he
                        cases he
                        simp only [EntryInv]
                        intro hmutpos
                        exact absurd hmutpos hguard
                · split at hstep
                  · exact absurd hstep (by simp)
                  · simp only [Except.ok.injEq, Prod.mk.injEq] at hstep
                    rw [← hstep.2]; exact hinv
              · split at hstep
                · exact absurd hstep (by simp)
                · simp only [Except.ok.injEq, Prod.mk.injEq] at hstep
                  rw [← hstep.2]; exact hinv
    · exact absurd h (by simp)

end Sem

/-- C8: for every symbol table entry and after every sequence of
reference-taking operations (& and &mut) on it, the borrow-counter
invariant holds: a positive mutable borrow count forces a zero immutable
borrow count.  An operation that raises a semantic error aborts the
compilation and leaves the counters unchanged. -/
theorem c8_borrow_counter_invariant (ops : List (String × Sem.FactorAttrs))
    (st : Sem.AnalyzerState) (hinv : Sem.TablesInv st.symbolTables) :
    Sem.TablesInv (Sem.applyRefOps ops st).symbolTables := by
  induction ops generalizing st with
  | nil => exact hinv
  | cons hd rest ih =>
    obtain ⟨op, t⟩ := hd
    cases h : Sem.processReferenceOp op t st with
    | ok r =>
      obtain ⟨r1, st1⟩ := r
      simp only [Sem.applyRefOps, h]
      exact ih st1 (Sem.refOp_preserves_inv h hinv)
    | error m =>
      simp only [Sem.applyRefOps, h]
      exact ih st hinv

/-- Concrete symbol table entry for the C8 witness: a mutable i32
variable with no outstanding borrows, as add_symbol creates it. -/
def c8wEntry : Sem.SymbolTableEntry :=
  { name := "x", symType := .VARIABLE, dataType := .i32, scopeLevel := 0,
    isMutable := true, initialized := true }

/-- Analyzer state holding only the entry above. -/
def c8wState : Sem.AnalyzerState := { symbolTables := [[("x", c8wEntry)]] }

/-- A sequence of reference-taking operations on x: a shared borrow, then
an attempted mutable borrow (refused), then another shared borrow. -/
def c8wOps : List (String × Sem.FactorAttrs) :=
  [("&", { isLvalue := true, name := some "x", place := .strVal "x" }),
   ("&mut", { isLvalue := true, name := some "x", place := .strVal "x" }),
   ("&", { isLvalue := true, name := some "x", place := .strVal "x" })]

theorem c8_borrow_counter_invariant_witness :
    Sem.TablesInv c8wState.symbolTables ∧
    Sem.TablesInv (Sem.applyRefOps c8wOps c8wState).symbolTables :=
  ⟨by decide, c8_borrow_counter_invariant c8wOps c8wState (by decide)⟩

/-- C7: an immutable (non-mut) variable may be assigned exactly once.
With the entry not yet initialized, as process_variable_declaration
leaves it, a type-correct assignment succeeds, flips `initialized` from
false to true, appends exactly one ASSIGN quadruple to the returned code
and leaves the global quadruple accumulator unchanged; once
`initialized` is true, every further assignment to the immutable
variable raises a semantic error, so no ASSIGN quadruple for it is
returned. -/
theorem checkTypeCompat_refl (t : Sem.DataType) : Sem.checkTypeCompat t t = .ok () := by
  simp [Sem.checkTypeCompat]

theorem c7_immutable_single_assignment (x : String) (pl epl : Sem.Operand)
    (acode ecode : List Sem.Quad) (ety : Sem.DataType)
    (st : Sem.AnalyzerState) (ent : Sem.SymbolTableEntry)
    (hlook : Sem.lookupSymbol st.symbolTables x = some ent)
    (hmut : ent.isMutable = false) :
    (ent.initialized = false →
      Sem.checkTypeCompat ent.dataType ety = .ok () →
      ∃ st',
        Sem.processAssignment
            { isLvalue := true, name := some x, place := pl,
              symType := some .VARIABLE, code := acode }
            { type := ety, place := epl, code := ecode } st
          = .ok (acode ++ ecode ++ [⟨"ASSIGN", epl, .noneVal, pl⟩], st')
        ∧ (Sem.lookupSymbol st'.symbolTables x).map (fun e => e.initialized) = some true
        ∧ st'.quadruples = st.quadruples)
    ∧ (ent.initialized = true →
        ∃ msg,
          Sem.processAssignment
              { isLvalue := true, name := some x, place := pl,
                symType := some .VARIABLE, code := acode }
              { type := ety, place := epl, code := ecode } st
            = .error msg) := by
  constructor
  · intro hinit hcompat
    have hcond : (!ent.isMutable && ent.initialized) = false := by
      rw [hmut, hinit]; rfl
    cases hu : ent.dataType.isUnknown with
    | true =>
      refine ⟨{ st with symbolTables := Sem.updateSymbol (Sem.updateSymbol st.symbolTables x (fun en => { en with dataType := ety })) x (fun en => { en with initialized := true }) }, ?_, ?_, rfl⟩
      · simp [Sem.processAssignment, hlook, hcond, hu, hcompat, checkTypeCompat_refl]
      · rw [Sem.lookup_updateSymbol, Sem.lookup_updateSymbol, hlook]; rfl
    | false =>
      refine ⟨{ st with symbolTables := Sem.updateSymbol st.symbolTables x (fun en => { en with initialized := true }) }, ?_, ?_, rfl⟩
      · simp [Sem.processAssignment, hlook, hcond, hu, hcompat]
      · rw [Sem.lookup_updateSymbol, hlook]; rfl
  · intro hinit
    have hcond : (!ent.isMutable && ent.initialized) = true := by
      rw [hmut, hinit]; rfl
    refine ⟨"Cannot assign to immutable variable.", ?_⟩
    simp [Sem.processAssignment, hlook, hcond]

/-- Analyzer state after `let x : i32;` starting from a fresh analyzer:
the entry for x is immutable and uninitialized. -/
def c7wDeclState : Sem.AnalyzerState :=
  (Sem.processVariableDeclaration ⟨"x", false, 1⟩ (some ⟨Sem.DataType.i32, []⟩) {}).2

/-- The entry that declaration creates. -/
def c7wEntry : Sem.SymbolTableEntry :=
  { name := "x", symType := .VARIABLE, dataType := .i32, scopeLevel := 0,
    isMutable := false, initialized := false, lineDeclared := 1 }

/-- State after the first (successful) assignment `x = 5;`. -/
def c7wState1 : Sem.AnalyzerState :=
  match Sem.processAssignment
      { isLvalue := true, name := some "x", place := .strVal "x",
        symType := some .VARIABLE, code := [] }
      { type := .i32, place := .intVal 5, code := [] } c7wDeclState with
  | .ok r => r.2
  | .error _ => c7wDeclState

/-- The entry after the first assignment. -/
def c7wEntry1 : Sem.SymbolTableEntry := { c7wEntry with initialized := true }

theorem c7_immutable_single_assignment_witness :
    (∃ st',
      Sem.processAssignment
          { isLvalue := true, name := some "x", place := .strVal "x",
            symType := some .VARIABLE, code := [] }
          { type := .i32, place := .intVal 5, code := [] } c7wDeclState
        = .ok ([] ++ [] ++ [⟨"ASSIGN", .intVal 5, .noneVal, .strVal "x"⟩], st')
      ∧ (Sem.lookupSymbol st'.symbolTables "x").map (fun e => e.initialized) = some true
      ∧ st'.quadruples = c7wDeclState.quadruples)
    ∧ (∃ msg,
        Sem.processAssignment
            { isLvalue := true, name := some "x", place := .strVal "x",
              symType := some .VARIABLE, code := [] }
            { type := .i32, place := .intVal 5, code := [] } c7wState1
          = .error msg) :=
  ⟨(c7_immutable_single_assignment "x" (.strVal "x") (.intVal 5) [] [] .i32
      c7wDeclState c7wEntry rfl rfl).1 rfl rfl,
   (c7_immutable_single_assignment "x" (.strVal "x") (.intVal 5) [] [] .i32
      c7wState1 c7wEntry1 rfl rfl).2 rfl⟩

/-- C9 (amended): the for-range lowering emits, in this exact order: the
code of a; ASSIGN of a's place into the start temp t(k+2); the code of b;
ASSIGN of b's place into the end temp t(k+3); iterator initialization
ASSIGN t(k+2) into t(k+1); LABEL Ls; GE t(k+1) t(k+3) t(k+4);
IF_TRUE t(k+4) with target Le; an ASSIGN of the iterator temp into the
loop variable; the body; ADD t(k+1) "1" t(k+5); ASSIGN t(k+5) back into
t(k+1); JUMP Ls; LABEL Le.  The final analyzer state differs from the
initial one only in the counters and the accumulator: the symbol tables
are untouched, so no fresh scope is opened and the loop variable is
never bound. -/
theorem c9_for_range_lowering (v : String) (a b : Sem.ExprAttrs)
    (body : Sem.BlockAttrs) (st : Sem.AnalyzerState) :
    Sem.processForLoop v a b body st = .ok (
      a.code ++ ⟨"ASSIGN", a.place, .noneVal, .strVal ("t" ++ toString (st.tempVarCount + 2))⟩ ::
        (b.code ++ ⟨"ASSIGN", b.place, .noneVal, .strVal ("t" ++ toString (st.tempVarCount + 3))⟩ ::
          ⟨"ASSIGN", .strVal ("t" ++ toString (st.tempVarCount + 2)), .noneVal, .strVal ("t" ++ toString (st.tempVarCount + 1))⟩ ::
          ⟨"LABEL", .noneVal, .noneVal, .strVal ("L" ++ toString (st.labelCount + 1))⟩ ::
          ⟨"GE", .strVal ("t" ++ toString (st.tempVarCount + 1)), .strVal ("t" ++ toString (st.tempVarCount + 3)), .strVal ("t" ++ toString (st.tempVarCount + 4))⟩ ::
          ⟨"IF_TRUE", .strVal ("t" ++ toString (st.tempVarCount + 4)), .noneVal, .strVal ("L" ++ toString (st.labelCount + 2))⟩ ::
          ⟨"ASSIGN", .strVal ("t" ++ toString (st.tempVarCount + 1)), .noneVal, .strVal v⟩ ::
          (body.code ++
            [⟨"ADD", .strVal ("t" ++ toString (st.tempVarCount + 1)), .strVal "1", .strVal ("t" ++ toString (st.tempVarCount + 5))⟩,
             ⟨"ASSIGN", .strVal ("t" ++ toString (st.tempVarCount + 5)), .noneVal, .strVal ("t" ++ toString (st.tempVarCount + 1))⟩,
             ⟨"JUMP", .noneVal, .noneVal, .strVal ("L" ++ toString (st.labelCount + 1))⟩,
             ⟨"LABEL", .noneVal, .noneVal, .strVal ("L" ++ toString (st.labelCount + 2))⟩])),
      { st with
          labelCount := st.labelCount + 2,
          tempVarCount := st.tempVarCount + 5,
          quadruples := st.quadruples ++
            [⟨"ASSIGN", a.place, .noneVal, .strVal ("t" ++ toString (st.tempVarCount + 2))⟩,
             ⟨"ASSIGN", b.place, .noneVal, .strVal ("t" ++ toString (st.tempVarCount + 3))⟩,
             ⟨"ASSIGN", .strVal ("t" ++ toString (st.tempVarCount + 2)), .noneVal, .strVal ("t" ++ toString (st.tempVarCount + 1))⟩,
             ⟨"LABEL", .noneVal, .noneVal, .strVal ("L" ++ toString (st.labelCount + 1))⟩,
             ⟨"GE", .strVal ("t" ++ toString (st.tempVarCount + 1)), .strVal ("t" ++ toString (st.tempVarCount + 3)), .strVal ("t" ++ toString (st.tempVarCount + 4))⟩,
             ⟨"IF_TRUE", .strVal ("t" ++ toString (st.tempVarCount + 4)), .noneVal, .strVal ("L" ++ toString (st.labelCount + 2))⟩,
             ⟨"ASSIGN", .strVal ("t" ++ toString (st.tempVarCount + 1)), .noneVal, .strVal v⟩,
             ⟨"ADD", .strVal ("t" ++ toString (st.tempVarCount + 1)), .strVal "1", .strVal ("t" ++ toString (st.tempVarCount + 5))⟩,
             ⟨"ASSIGN", .strVal ("t" ++ toString (st.tempVarCount + 5)), .noneVal, .strVal ("t" ++ toString (st.tempVarCount + 1))⟩,
             ⟨"JUMP", .noneVal, .noneVal, .strVal ("L" ++ toString (st.labelCount + 1))⟩,
             ⟨"LABEL", .noneVal, .noneVal, .strVal ("L" ++ toString (st.labelCount + 2))⟩] }) := by
  simp [Sem.processForLoop, Sem.processForLoopBegin, Sem.processForLoopEnd,
    Sem.newTemp, Sem.newLabel, Sem.addQuad, Nat.add_assoc]

/-- Concrete for-range lowering for the C9 counterexample:
`for i in 3..7 { }` processed from a fresh analyzer state. -/
def c9Run : Except String (List Sem.Quad × Sem.AnalyzerState) :=
  Sem.processForLoop "i" { type := .i32, place := .intVal 3, code := [] }
    { type := .i32, place := .intVal 7, code := [] } { code := [] } {}

/-- The analyzer state right after process_for_loop_begin of the same
loop, before the body: even during the loop the symbol tables are the
untouched fresh stack. -/
def c9BeginState : Sem.AnalyzerState :=
  (Sem.processForLoopBegin "i" { type := .i32, place := .intVal 3, code := [] }
    { type := .i32, place := .intVal 7, code := [] } ({} : Sem.AnalyzerState)).2

theorem c9_counterexample :
    (c9Run.toOption.map fun r =>
       ((Sem.lookupSymbol r.2.symbolTables "i").isSome,
        r.2.symbolTables.length, (r.2.symbolTables.headD []).length)) = some (false, 1, 0)
    ∧ (Sem.lookupSymbol c9BeginState.symbolTables "i").isSome = false
    ∧ c9BeginState.symbolTables.length = 1
    ∧ (c9BeginState.symbolTables.headD []).length = 0 := by
  refine ⟨rfl, rfl, rfl, rfl⟩

/-- C2 (amended): the temporaries that one for-range lowering creates are
not single-assignment: among the quadruples the lowering itself appends
to the accumulator, the iterator temp t(k+1) is the destination of
exactly two quadruples (iterator initialization and the increment
write-back), while the start, end, condition and increment temps
t(k+2)..t(k+5) are destinations exactly once each. -/
theorem c2_for_range_temp_writes (v ls le n1 n2 n3 n4 n5 : String)
    (a b : Sem.ExprAttrs) (body : Sem.BlockAttrs) (st : Sem.AnalyzerState)
    (code : List Sem.Quad) (st' : Sem.AnalyzerState)
    (hrun : Sem.processForLoop v a b body st = .ok (code, st'))
    (hn1 : n1 = "t" ++ toString (st.tempVarCount + 1))
    (hn2 : n2 = "t" ++ toString (st.tempVarCount + 2))
    (hn3 : n3 = "t" ++ toString (st.tempVarCount + 3))
    (hn4 : n4 = "t" ++ toString (st.tempVarCount + 4))
    (hn5 : n5 = "t" ++ toString (st.tempVarCount + 5))
    (hls : ls = "L" ++ toString (st.labelCount + 1))
    (hle : le = "L" ++ toString (st.labelCount + 2))
    (hnodup : [v, ls, le, n1, n2, n3, n4, n5].Pairwise (· ≠ ·)) :
    Sem.countDest (.strVal n1) (st'.quadruples.drop st.quadruples.length) = 2
    ∧ Sem.countDest (.strVal n2) (st'.quadruples.drop st.quadruples.length) = 1
    ∧ Sem.countDest (.strVal n3) (st'.quadruples.drop st.quadruples.length) = 1
    ∧ Sem.countDest (.strVal n4) (st'.quadruples.drop st.quadruples.length) = 1
    ∧ Sem.countDest (.strVal n5) (st'.quadruples.drop st.quadruples.length) = 1 := by
  simp only [List.pairwise_cons, List.mem_cons, List.not_mem_nil, or_false] at hnodup
  obtain ⟨hv', hls', hle', h1', h2', h3', h4', -⟩ := hnodup
  simp only [Sem.processForLoop, Sem.processForLoopBegin, Sem.processForLoopEnd,
    Sem.newTemp, Sem.newLabel, Sem.addQuad, Nat.add_assoc] at hrun
  simp only [reduceIte, Except.ok.injEq, Prod.mk.injEq] at hrun
  obtain ⟨hc, hs⟩ := hrun
  rw [← hs]
  simp only [List.drop_left]
  simp [Sem.countDest, List.countP_cons, List.countP_nil,
    ← hn1, ← hn2, ← hn3, ← hn4, ← hn5, ← hls, ← hle,
    h1' n2 (by simp), h1' n3 (by simp), h1' n4 (by simp), h1' n5 (by simp),
    (h1' n2 (by simp)).symm, (h1' n3 (by simp)).symm, (h1' n4 (by simp)).symm,
    (h1' n5 (by simp)).symm,
    h2' n3 (by simp), h2' n4 (by simp), h2' n5 (by simp),
    (h2' n3 (by simp)).symm, (h2' n4 (by simp)).symm, (h2' n5 (by simp)).symm,
    h3' n4 (by simp), h3' n5 (by simp),
    (h3' n4 (by simp)).symm, (h3' n5 (by simp)).symm,
    h4' n5 (by simp), (h4' n5 (by simp)).symm,
    hls' n1 (by simp), hls' n2 (by simp), hls' n3 (by simp), hls' n4 (by simp),
    hls' n5 (by simp),
    hle' n1 (by simp), hle' n2 (by simp), hle' n3 (by simp), hle' n4 (by simp),
    hle' n5 (by simp),
    hv' n1 (by simp), hv' n2 (by simp), hv' n3 (by simp), hv' n4 (by simp),
    hv' n5 (by simp)]

/-- Concrete for-range lowering `for i in 0..9 { }` from a fresh
analyzer state, used for the C2 witness and counterexample. -/
def c2wRun : Except String (List Sem.Quad × Sem.AnalyzerState) :=
  Sem.processForLoop "i" { type := .i32, place := .intVal 0, code := [] }
    { type := .i32, place := .intVal 9, code := [] } { code := [] } {}

/-- The code list returned by that lowering. -/
def c2wCode : List Sem.Quad :=
  match c2wRun with
  | .ok r => r.1
  | .error _ => []

/-- The analyzer state after that lowering. -/
def c2wState : Sem.AnalyzerState :=
  match c2wRun with
  | .ok r => r.2
  | .error _ => {}

theorem c2_for_range_temp_writes_witness :
    Sem.countDest (.strVal "t1")
      (c2wState.quadruples.drop (({} : Sem.AnalyzerState).quadruples.length)) = 2
    ∧ Sem.countDest (.strVal "t2")
      (c2wState.quadruples.drop (({} : Sem.AnalyzerState).quadruples.length)) = 1
    ∧ Sem.countDest (.strVal "t3")
      (c2wState.quadruples.drop (({} : Sem.AnalyzerState).quadruples.length)) = 1
    ∧ Sem.countDest (.strVal "t4")
      (c2wState.quadruples.drop (({} : Sem.AnalyzerState).quadruples.length)) = 1
    ∧ Sem.countDest (.strVal "t5")
      (c2wState.quadruples.drop (({} : Sem.AnalyzerState).quadruples.length)) = 1 :=
  c2_for_range_temp_writes "i" "L1" "L2" "t1" "t2" "t3" "t4" "t5"
    { type := .i32, place := .intVal 0, code := [] }
    { type := .i32, place := .intVal 9, code := [] } { code := [] } {}
    c2wCode c2wState rfl rfl rfl rfl rfl rfl rfl rfl (by decide)

theorem c2_counterexample :
    Sem.countDest (.strVal "t1") c2wCode = 2
    ∧ Sem.countDest (.strVal "t1") c2wState.quadruples = 2
    ∧ ¬ Sem.countDest (.strVal "t1") c2wState.quadruples ≤ 1 := by
  refine ⟨rfl, rfl, by decide⟩

namespace Cg

/-- Symbol information the code generator consults: kind, type and (for
functions) the declared parameter names. -/
structure CgEntry where
  symType : Sem.SymbolType
  dataType : Sem.DataType
  params : List String := []

/-- Errors CodeGenerator can raise: the register-exhaustion exception of
_get_reg, the beyond-four-arguments NotImplementedError of PARAM, and
the Python TypeError hit when an arithmetic opcode receives a
non-integer where an integer is required. -/
inductive CgErr where
  | regsExhausted
  | tooManyArgs
  | typeErr
  deriving DecidableEq, Repr

/-- The ten temporary registers, as the initial free list. -/
def fullRegs : List Nat := [0, 1, 2, 3, 4, 5, 6, 7, 8, 9]

/-- Mutable state of CodeGenerator (codegen.py lines 4-13). -/
structure CgState where
  mipsCode : List String := []
  varMap : List (Sem.Operand × Int) := []
  stackOffset : Int := 0
  paramCount : Nat := 0
  freeRegs : List Nat := fullRegs
  symbolMap : List (String × CgEntry) := []

/-- Register name `$t<i>`. -/
def regName (i : Nat) : String := "$t" ++ toString i

/-- Stable ascending insertion, modelling Python list.sort on the
distinct register numbers. -/
def insertSorted (x : Nat) : List Nat → List Nat
  | [] => [x]
  | y :: r => if x ≤ y then x :: y :: r else y :: insertSorted x r

/-- Sorting of the free-register list; on distinct numbers this is the
ascending order Python list.sort produces. -/
def pySort : List Nat → List Nat
  | [] => []
  | x :: r => insertSorted x (pySort r)

/-- _release_reg on the free list: insert at the front and sort, but only
for a temporary register not already free. -/
def releaseList (r : Nat) (l : List Nat) : List Nat :=
  if r < 10 && !(l.contains r) then pySort (r :: l) else l

/-- _get_reg from codegen.py: pop the first free register or raise. -/
def getReg (st : CgState) : Except CgErr (Nat × CgState) :=
  match st.freeRegs with
  | [] => .error .regsExhausted
  | r :: rest => .ok (r, { st with freeRegs := rest })

/-- _release_reg from codegen.py. -/
def releaseReg (r : Nat) (st : CgState) : CgState :=
  { st with freeRegs := releaseList r st.freeRegs }

/-- Association-list lookup for the var_map dictionary. -/
def omGet (m : List (Sem.Operand × Int)) (k : Sem.Operand) : Option Int :=
  match m with
  | [] => Option.none
  | (k0, v0) :: r => if k0 = k then some v0 else omGet r k

/-- Association-list insertion/update for the var_map dictionary. -/
def omSet (m : List (Sem.Operand × Int)) (k : Sem.Operand) (v : Int) :
    List (Sem.Operand × Int) :=
  match m with
  | [] => [(k, v)]
  | (k0, v0) :: r => if k0 = k then (k0, v) :: r else (k0, v0) :: omSet r k v

/-- current_symbol_map.get. -/
def symGet (m : List (String × CgEntry)) (k : String) : Option CgEntry :=
  match m with
  | [] => Option.none
  | (k0, v0) :: r => if k0 = k then some v0 else symGet r k

/-- current_symbol_map.get applied to a raw operand: only a string key
can hit an entry. -/
def lookupEntry (st : CgState) (o : Sem.Operand) : Option CgEntry :=
  match o with
  | .strVal s => symGet st.symbolMap s
  | _ => Option.none

/-- The Python test `isinstance(x, list) and x[0] == "["`. -/
def isArrayDT : Sem.DataType → Bool
  | .array _ _ => true
  | _ => false

/-- Array length `data_type[2]`. -/
def arrayLenDT : Sem.DataType → Nat
  | .array _ n => n
  | _ => 0

/-- Python str() of an operand, for f-string interpolation. -/
def opStr : Sem.Operand → String
  | .intVal n => toString n
  | .strVal s => s
  | .noneVal => "None"

/-- Python truthiness of an operand (`if result:`). -/
def truthy : Sem.Operand → Bool
  | .intVal n => n != 0
  | .strVal s => s != ""
  | .noneVal => false

/-- _get_var_stack_offset from codegen.py: assign a fresh negative
offset on first reference, sized by the symbol table entry. -/
def getVarOffset (st : CgState) (v : Sem.Operand) : Int × CgState :=
  match omGet st.varMap v with
  | some off => (off, st)
  | Option.none =>
    let size : Int :=
      match lookupEntry st v with
      | some e => if isArrayDT e.dataType then (arrayLenDT e.dataType : Int) * 4 else 4
      | Option.none => 4
    let off := st.stackOffset - size
    (off, { st with stackOffset := off, varMap := omSet st.varMap v off })

/-- Append emitted MIPS lines. -/
def emit (st : CgState) (lines : List String) : CgState :=
  { st with mipsCode := st.mipsCode ++ lines }

/-- _load_value_to_reg from codegen.py. -/
def loadValueToReg (o : Sem.Operand) (reg : String) (st : CgState) : CgState :=
  match o with
  | .intVal n => emit st ["    li " ++ reg ++ ", " ++ toString n]
  | _ =>
    let os := getVarOffset st o
    emit os.2 ["    lw " ++ reg ++ ", " ++ toString os.1 ++ "($fp)"]

/-- _load_address_to_reg from codegen.py: array parameters already hold
an address in their slot, anything else takes `$fp + offset`. -/
def loadAddressToReg (v : Sem.Operand) (reg : String) (st : CgState) : CgState :=
  let entry := lookupEntry st v
  let os := getVarOffset st v
  let isArrayParam :=
    match entry with
    | some e => e.symType = Sem.SymbolType.PARAMETER && isArrayDT e.dataType
    | Option.none => false
  if isArrayParam then emit os.2 ["    lw " ++ reg ++ ", " ++ toString os.1 ++ "($fp)"]
  else emit os.2 ["    addiu " ++ reg ++ ", $fp, " ++ toString os.1]

/-- The string operands a quadruple mentions that name locals or temps
(not labels), deduplicated in first-occurrence order.  Only the sum over
this set matters, so the CPython set-iteration order is irrelevant. -/
def collectVars (symMap : List (String × CgEntry)) (qs : List Sem.Quad) : List String :=
  qs.foldl (fun acc q =>
    [q.arg1, q.arg2, q.result].foldl (fun acc o =>
      match o with
      | .strVal s =>
        if s.startsWith "L" then acc
        else
          let keep :=
            match symGet symMap s with
            | some e => !(e.symType = Sem.SymbolType.FUNCTION)
            | Option.none => true
          if keep && !(acc.contains s) then acc ++ [s] else acc
      | _ => acc) acc) []

/-- The per-variable size accumulation of _calculate_stack_space. -/
def spaceSum (symMap : List (String × CgEntry)) (vars : List String) : Nat :=
  vars.foldl (fun size v =>
    match symGet symMap v with
    | some e =>
      if e.symType ≠ Sem.SymbolType.PARAMETER then
        size + (if isArrayDT e.dataType then arrayLenDT e.dataType * 4 else 4)
      else size
    | Option.none => size + 4) 0

/-- The Python `(size + 15) & -16` on a non-negative size. -/
def roundUp16 (n : Nat) : Nat := (n + 15) - (n + 15) % 16

/-- _calculate_stack_space from codegen.py. -/
def calcStackSpace (symMap : List (String × CgEntry)) (qs : List Sem.Quad) : Nat :=
  roundUp16 (spaceSum symMap (collectVars symMap qs))

/-- Spill the first four parameters from `$a0..$a3` at function entry. -/
def spillParams (i : Nat) (ps : List String) (st : CgState) : CgState :=
  match ps with
  | [] => st
  | p :: rest =>
    if i < 4 then
      let os := getVarOffset st (.strVal p)
      spillParams (i + 1) rest (emit os.2 ["    sw $a" ++ toString i ++ ", " ++ toString os.1 ++ "($fp)"])
    else spillParams (i + 1) rest st

/-- The unrolled element-wise copy loop of an array ASSIGN. -/
def copyLoop (regSrc regDst regTmp : String) (len : Nat) : List String :=
  (List.range len).foldl (fun acc i =>
    acc ++ ["    lw " ++ regTmp ++ ", " ++ toString (i * 4) ++ "(" ++ regSrc ++ ")",
            "    sw " ++ regTmp ++ ", " ++ toString (i * 4) ++ "(" ++ regDst ++ ")"]) []

end Cg

namespace Cg

/-- _translate_quads from codegen.py (lines 88-301), one quadruple,
written as the same if/elif chain as the Python source.  `allQuads` is
the function body passed to the surrounding loop (FUNC_BEGIN scans it
for the frame size) and `funcEntry` the function symbol.  An opcode with
no branch falls through and leaves the state unchanged, as in the
source. -/
def translateQuad (allQuads : List Sem.Quad) (funcEntry : Option CgEntry)
    (q : Sem.Quad) (st : CgState) : Except CgErr CgState :=
  if q.op = "FUNC_BEGIN" then
    let st := emit st ["\n" ++ opStr q.arg1 ++ ":", "    addiu $sp, $sp, -8",
      "    sw $ra, 4($sp)", "    sw $fp, 0($sp)", "    move $fp, $sp"]
    let stackSpace := calcStackSpace st.symbolMap allQuads
    let st := emit st ["    addiu $sp, $sp, -" ++ toString stackSpace]
    let st := { st with stackOffset := 0, varMap := [] }
    match funcEntry with
    | some e =>
      if e.symType = Sem.SymbolType.FUNCTION then .ok (spillParams 0 e.params st)
      else .ok st
    | Option.none => .ok st
  else if q.op = "ARRAY_LOAD" then
    match getReg st with
    | .error e => .error e
    | .ok (rBase, st) =>
      match getReg st with
      | .error e => .error e
      | .ok (rIdx, st) =>
        match getReg st with
        | .error e => .error e
        | .ok (rDst, st) =>
          let st := loadAddressToReg q.arg1 (regName rBase) st
          let st := loadValueToReg q.arg2 (regName rIdx) st
          let st := emit st ["    sll " ++ regName rIdx ++ ", " ++ regName rIdx ++ ", 2",
            "    addu " ++ regName rBase ++ ", " ++ regName rBase ++ ", " ++ regName rIdx,
            "    lw " ++ regName rDst ++ ", 0(" ++ regName rBase ++ ")"]
          let os := getVarOffset st q.result
          let st := emit os.2 ["    sw " ++ regName rDst ++ ", " ++ toString os.1 ++ "($fp)"]
          .ok (releaseReg rDst (releaseReg rIdx (releaseReg rBase st)))
  else if q.op = "ARRAY_STORE" then
    match getReg st with
    | .error e => .error e
    | .ok (rBase, st) =>
      match getReg st with
      | .error e => .error e
      | .ok (rIdx, st) =>
        match getReg st with
        | .error e => .error e
        | .ok (rVal, st) =>
          let st := loadAddressToReg q.arg1 (regName rBase) st
          let st := loadValueToReg q.arg2 (regName rIdx) st
          let st := loadValueToReg q.result (regName rVal) st
          let st := emit st ["    sll " ++ regName rIdx ++ ", " ++ regName rIdx ++ ", 2",
            "    addu " ++ regName rBase ++ ", " ++ regName rBase ++ ", " ++ regName rIdx,
            "    sw " ++ regName rVal ++ ", 0(" ++ regName rBase ++ ")"]
          .ok (releaseReg rVal (releaseReg rIdx (releaseReg rBase st)))
  else if q.op = "PARAM" then
    let isArray :=
      match lookupEntry st q.arg1 with
      | some e => isArrayDT e.dataType
      | Option.none => false
    if st.paramCount < 4 then
      let areg := "$a" ++ toString st.paramCount
      let st := if isArray then loadAddressToReg q.arg1 areg st
                else loadValueToReg q.arg1 areg st
      .ok { st with paramCount := st.paramCount + 1 }
    else .error .tooManyArgs
  else if q.op = "ARRAY_INIT" then
    match omGet st.varMap q.arg1 with
    | some _ => .ok st
    | Option.none =>
      match q.arg2 with
      | .intVal n =>
        let off := st.stackOffset - n * 4
        .ok { st with stackOffset := off, varMap := omSet st.varMap q.arg1 off }
      | _ => .error .typeErr
  else if q.op = "ARRAY_SET" then
    let os := getVarOffset st q.arg1
    match q.arg2 with
    | .intVal idx =>
      let finalOff := os.1 + idx * 4
      match getReg os.2 with
      | .error e => .error e
      | .ok (rVal, st) =>
        let st := loadValueToReg q.result (regName rVal) st
        let st := emit st ["    sw " ++ regName rVal ++ ", " ++ toString finalOff ++ "($fp)"]
        .ok (releaseReg rVal st)
    | _ => .error .typeErr
  else if q.op = "ASSIGN" then
    match lookupEntry st q.result with
    | some e =>
      if isArrayDT e.dataType then
        match getReg st with
        | .error e2 => .error e2
        | .ok (rSrc, st) =>
          match getReg st with
          | .error e2 => .error e2
          | .ok (rDst, st) =>
            match getReg st with
            | .error e2 => .error e2
            | .ok (rTmp, st) =>
              let st := loadAddressToReg q.arg1 (regName rSrc) st
              let st := loadAddressToReg q.result (regName rDst) st
              let st := emit st (copyLoop (regName rSrc) (regName rDst) (regName rTmp) (arrayLenDT e.dataType))
              .ok (releaseReg rTmp (releaseReg rDst (releaseReg rSrc st)))
      else
        match getReg st with
        | .error e2 => .error e2
        | .ok (r1, st) =>
          let st := loadValueToReg q.arg1 (regName r1) st
          let os := getVarOffset st q.result
          let st := emit os.2 ["    sw " ++ regName r1 ++ ", " ++ toString os.1 ++ "($fp)"]
          .ok (releaseReg r1 st)
    | Option.none =>
      match getReg st with
      | .error e2 => .error e2
      | .ok (r1, st) =>
        let st := loadValueToReg q.arg1 (regName r1) st
        let os := getVarOffset st q.result
        let st := emit os.2 ["    sw " ++ regName r1 ++ ", " ++ toString os.1 ++ "($fp)"]
        .ok (releaseReg r1 st)
  else if q.op = "ADD" ∨ q.op = "SUB" ∨ q.op = "MUL" ∨ q.op = "DIV" then
    match getReg st with
    | .error e => .error e
    | .ok (r1, st) =>
      match getReg st with
      | .error e => .error e
      | .ok (r2, st) =>
        match getReg st with
        | .error e => .error e
        | .ok (r3, st) =>
          let st := loadValueToReg q.arg1 (regName r1) st
          let st := loadValueToReg q.arg2 (regName r2) st
          let mnem := if q.op = "ADD" then "addu" else if q.op = "SUB" then "subu"
            else if q.op = "MUL" then "mul" else "div"
          let st := emit st ["    " ++ mnem ++ " " ++ regName r3 ++ ", " ++ regName r1 ++ ", " ++ regName r2]
          let st := if q.op = "DIV" then emit st ["    mflo " ++ regName r3] else st
          let os := getVarOffset st q.result
          let st := emit os.2 ["    sw " ++ regName r3 ++ ", " ++ toString os.1 ++ "($fp)"]
          .ok (releaseReg r3 (releaseReg r2 (releaseReg r1 st)))
  else if q.op = "GT" ∨ q.op = "GE" ∨ q.op = "LT" ∨ q.op = "LE" ∨ q.op = "EQ" ∨ q.op = "NE" then
    match getReg st with
    | .error e => .error e
    | .ok (r1, st) =>
      match getReg st with
      | .error e => .error e
      | .ok (r2, st) =>
        match getReg st with
        | .error e => .error e
        | .ok (r3, st) =>
          let st := loadValueToReg q.arg1 (regName r1) st
          let st := loadValueToReg q.arg2 (regName r2) st
          let mnem := if q.op = "GT" then "sgt" else if q.op = "GE" then "sge"
            else if q.op = "LT" then "slt" else if q.op = "LE" then "sle"
            else if q.op = "EQ" then "seq" else "sne"
          let st := emit st ["    " ++ mnem ++ " " ++ regName r3 ++ ", " ++ regName r1 ++ ", " ++ regName r2]
          let os := getVarOffset st q.result
          let st := emit os.2 ["    sw " ++ regName r3 ++ ", " ++ toString os.1 ++ "($fp)"]
          .ok (releaseReg r3 (releaseReg r2 (releaseReg r1 st)))
  else if q.op = "LABEL" then
    .ok (emit st [opStr q.result ++ ":"])
  else if q.op = "JUMP" then
    .ok (emit st ["    j " ++ opStr q.result])
  else if q.op = "IF_FALSE" then
    match getReg st with
    | .error e => .error e
    | .ok (r1, st) =>
      let st := loadValueToReg q.arg1 (regName r1) st
      let st := emit st ["    beqz " ++ regName r1 ++ ", " ++ opStr q.result]
      .ok (releaseReg r1 st)
  else if q.op = "CALL" then
    let st := emit st ["    jal " ++ opStr q.arg1]
    let st := { st with paramCount := 0 }
    if truthy q.result then
      let os := getVarOffset st q.result
      .ok (emit os.2 ["    sw $v0, " ++ toString os.1 ++ "($fp)"])
    else .ok st
  else if q.op = "RETURN_VAL" then
    .ok (loadValueToReg q.arg1 "$v0" st)
  else if q.op = "FUNC_END" then
    .ok (emit st ["    move $sp, $fp", "    lw $ra, 4($sp)", "    lw $fp, 0($sp)",
      "    addiu $sp, $sp, 8", "    jr $ra"])
  else if q.op = "REF" then
    match getReg st with
    | .error e => .error e
    | .ok (rAddr, st) =>
      let st := loadAddressToReg q.arg1 (regName rAddr) st
      let os := getVarOffset st q.result
      let st := emit os.2 ["    sw " ++ regName rAddr ++ ", " ++ toString os.1 ++ "($fp)"]
      .ok (releaseReg rAddr st)
  else if q.op = "DEREF_LOAD" then
    match getReg st with
    | .error e => .error e
    | .ok (rPtr, st) =>
      match getReg st with
      | .error e => .error e
      | .ok (rVal, st) =>
        let st := loadValueToReg q.arg1 (regName rPtr) st
        let st := emit st ["    lw " ++ regName rVal ++ ", 0(" ++ regName rPtr ++ ")"]
        let os := getVarOffset st q.result
        let st := emit os.2 ["    sw " ++ regName rVal ++ ", " ++ toString os.1 ++ "($fp)"]
        .ok (releaseReg rVal (releaseReg rPtr st))
  else if q.op = "DEREF_STORE" then
    match getReg st with
    | .error e => .error e
    | .ok (rPtr, st) =>
      match getReg st with
      | .error e => .error e
      | .ok (rVal, st) =>
        let st := loadValueToReg q.arg1 (regName rPtr) st
        let st := loadValueToReg q.result (regName rVal) st
        let st := emit st ["    sw " ++ regName rVal ++ ", 0(" ++ regName rPtr ++ ")"]
        .ok (releaseReg rVal (releaseReg rPtr st))
  else .ok st

/-- The loop of _translate_quads over a quadruple list. -/
def translateQuads (allQuads : List Sem.Quad) (funcEntry : Option CgEntry) :
    List Sem.Quad → CgState → Except CgErr CgState
  | [], st => .ok st
  | q :: rest, st =>
    match translateQuad allQuads funcEntry q st with
    | .ok st' => translateQuads allQuads funcEntry rest st'
    | .error e => .error e

end Cg

namespace Cg

@[simp] theorem freeRegs_emit (st : CgState) (l : List String) :
    (emit st l).freeRegs = st.freeRegs := rfl

@[simp] theorem freeRegs_getVarOffset (st : CgState) (v : Sem.Operand) :
    ((getVarOffset st v).2).freeRegs = st.freeRegs := by
  cases h : omGet st.varMap v <;> simp [getVarOffset, h]

@[simp] theorem freeRegs_loadValueToReg (o : Sem.Operand) (r : String) (st : CgState) :
    (loadValueToReg o r st).freeRegs = st.freeRegs := by
  cases o <;> simp [loadValueToReg]

@[simp] theorem freeRegs_loadAddressToReg (v : Sem.Operand) (r : String) (st : CgState) :
    (loadAddressToReg v r st).freeRegs = st.freeRegs := by
  unfold loadAddressToReg
  dsimp only
  split <;> simp

theorem getReg_full (st : CgState) (h : st.freeRegs = fullRegs) :
    getReg st = .ok (0, { st with freeRegs := [1, 2, 3, 4, 5, 6, 7, 8, 9] }) := by
  unfold getReg
  rw [h]
  rfl

@[simp] theorem freeRegs_iteEmit (c : Prop) [Decidable c] (st : CgState) (l : List String) :
    (if c then emit st l else st).freeRegs = st.freeRegs := by
  split <;> rfl

@[simp] theorem freeRegs_iteLoad (c : Prop) [Decidable c] (v : Sem.Operand) (r : String)
    (st : CgState) :
    (if c then loadAddressToReg v r st else loadValueToReg v r st).freeRegs = st.freeRegs := by
  split <;> simp

@[simp] theorem freeRegs_spillParams (i : Nat) (ps : List String) (st : CgState) :
    (spillParams i ps st).freeRegs = st.freeRegs := by
  induction ps generalizing i st with
  | nil => rfl
  | cons p rest ih =>
    unfold spillParams
    split <;> simp [ih]

@[simp] theorem freeRegs_releaseReg (r : Nat) (st : CgState) :
    (releaseReg r st).freeRegs = releaseList r st.freeRegs := rfl

/-- Wellformedness of one translation step for the register claim: an
error is never the register-exhaustion one, and a successful step hands
back all ten temporaries. -/
def regsOk : Except CgErr CgState → Prop
  | .error e => e ≠ .regsExhausted
  | .ok st => st.freeRegs = fullRegs

end Cg

set_option maxHeartbeats 2000000 in
/-- C10 single-step lemma: from a full free list, translating any one
quadruple never raises the register-exhaustion exception and, on
success, returns with the free list full again. -/
theorem cg_translateQuad_regs (allQ : List Sem.Quad) (fe : Option Cg.CgEntry)
    (q : Sem.Quad) (st : Cg.CgState) (h : st.freeRegs = Cg.fullRegs) :
    Cg.regsOk (Cg.translateQuad allQ fe q st) := by
  obtain ⟨m, vm, off, pc, fr, sm⟩ := st
  dsimp only at h
  subst h
  unfold Cg.translateQuad
  by_cases h1 : q.op = "FUNC_BEGIN"
  · rw [if_pos h1]
    dsimp only
    cases fe with
    | none => exact rfl
    | some e =>
      dsimp only
      by_cases hf : e.symType = Sem.SymbolType.FUNCTION
      · rw [if_pos hf]
        exact (Cg.freeRegs_spillParams 0 e.params _).trans rfl
      · rw [if_neg hf]
        exact rfl
  rw [if_neg h1]
  by_cases h2 : q.op = "ARRAY_LOAD"
  · rw [if_pos h2]
    dsimp only [Cg.getReg, Cg.fullRegs]
    simp only [Cg.regsOk, Cg.freeRegs_emit, Cg.freeRegs_getVarOffset,
      Cg.freeRegs_loadValueToReg, Cg.freeRegs_loadAddressToReg, Cg.freeRegs_iteEmit,
      Cg.freeRegs_iteLoad, Cg.freeRegs_releaseReg]
    decide
  rw [if_neg h2]
  by_cases h3 : q.op = "ARRAY_STORE"
  · rw [if_pos h3]
    dsimp only [Cg.getReg, Cg.fullRegs]
    simp only [Cg.regsOk, Cg.freeRegs_emit, Cg.freeRegs_getVarOffset,
      Cg.freeRegs_loadValueToReg, Cg.freeRegs_loadAddressToReg, Cg.freeRegs_iteEmit,
      Cg.freeRegs_iteLoad, Cg.freeRegs_releaseReg]
    decide
  rw [if_neg h3]
  by_cases h4 : q.op = "PARAM"
  · rw [if_pos h4]
    dsimp only
    by_cases hp : pc < 4
    · rw [if_pos hp]
      simp only [Cg.regsOk, Cg.freeRegs_iteLoad]
    · rw [if_neg hp]
      exact fun hh => nomatch hh
  rw [if_neg h4]
  by_cases h5 : q.op = "ARRAY_INIT"
  · rw [if_pos h5]
    dsimp only
    cases homg : Cg.omGet vm q.arg1 with
    | some v0 => exact rfl
    | none =>
      cases q.arg2 with
      | intVal n => exact rfl
      | strVal s => exact fun hh => nomatch hh
      | noneVal => exact fun hh => nomatch hh
  rw [if_neg h5]
  by_cases h6 : q.op = "ARRAY_SET"
  · rw [if_pos h6]
    dsimp only
    cases q.arg2 with
    | intVal idx =>
      rw [Cg.getReg_full _ (by simp)]
      dsimp only
      simp only [Cg.regsOk, Cg.freeRegs_emit, Cg.freeRegs_loadValueToReg,
        Cg.freeRegs_releaseReg]
      decide
    | strVal s => exact fun hh => nomatch hh
    | noneVal => exact fun hh => nomatch hh
  rw [if_neg h6]
  by_cases h7 : q.op = "ASSIGN"
  · rw [if_pos h7]
    dsimp only
    split
    · split
      · dsimp only [Cg.getReg, Cg.fullRegs]
        simp only [Cg.regsOk, Cg.freeRegs_emit, Cg.freeRegs_getVarOffset,
          Cg.freeRegs_loadValueToReg, Cg.freeRegs_loadAddressToReg, Cg.freeRegs_iteEmit,
          Cg.freeRegs_iteLoad, Cg.freeRegs_releaseReg]
        decide
      · dsimp only [Cg.getReg, Cg.fullRegs]
        simp only [Cg.regsOk, Cg.freeRegs_emit, Cg.freeRegs_getVarOffset,
          Cg.freeRegs_loadValueToReg, Cg.freeRegs_loadAddressToReg, Cg.freeRegs_iteEmit,
          Cg.freeRegs_iteLoad, Cg.freeRegs_releaseReg]
        decide
    · dsimp only [Cg.getReg, Cg.fullRegs]
      simp only [Cg.regsOk, Cg.freeRegs_emit, Cg.freeRegs_getVarOffset,
        Cg.freeRegs_loadValueToReg, Cg.freeRegs_loadAddressToReg, Cg.freeRegs_iteEmit,
        Cg.freeRegs_iteLoad, Cg.freeRegs_releaseReg]
      decide
  rw [if_neg h7]
  by_cases h8 : q.op = "ADD" ∨ q.op = "SUB" ∨ q.op = "MUL" ∨ q.op = "DIV"
  · rw [if_pos h8]
    dsimp only [Cg.getReg, Cg.fullRegs]
    simp only [Cg.regsOk, Cg.freeRegs_emit, Cg.freeRegs_getVarOffset,
      Cg.freeRegs_loadValueToReg, Cg.freeRegs_loadAddressToReg, Cg.freeRegs_iteEmit,
      Cg.freeRegs_iteLoad, Cg.freeRegs_releaseReg]
    decide
  rw [if_neg h8]
  by_cases h9 : q.op = "GT" ∨ q.op = "GE" ∨ q.op = "LT" ∨ q.op = "LE" ∨ q.op = "EQ" ∨ q.op = "NE"
  · rw [if_pos h9]
    dsimp only [Cg.getReg, Cg.fullRegs]
    simp only [Cg.regsOk, Cg.freeRegs_emit, Cg.freeRegs_getVarOffset,
      Cg.freeRegs_loadValueToReg, Cg.freeRegs_loadAddressToReg, Cg.freeRegs_iteEmit,
      Cg.freeRegs_iteLoad, Cg.freeRegs_releaseReg]
    decide
  rw [if_neg h9]
  by_cases h10 : q.op = "LABEL"
  · rw [if_pos h10]
    exact rfl
  rw [if_neg h10]
  by_cases h11 : q.op = "JUMP"
  · rw [if_pos h11]
    exact rfl
  rw [if_neg h11]
  by_cases h12 : q.op = "IF_FALSE"
  · rw [if_pos h12]
    dsimp only [Cg.getReg, Cg.fullRegs]
    simp only [Cg.regsOk, Cg.freeRegs_emit, Cg.freeRegs_getVarOffset,
      Cg.freeRegs_loadValueToReg, Cg.freeRegs_loadAddressToReg, Cg.freeRegs_iteEmit,
      Cg.freeRegs_iteLoad, Cg.freeRegs_releaseReg]
    decide
  rw [if_neg h12]
  by_cases h13 : q.op = "CALL"
  · rw [if_pos h13]
    dsimp only
    split
    · simp only [Cg.regsOk, Cg.freeRegs_emit, Cg.freeRegs_getVarOffset]
    · exact rfl
  rw [if_neg h13]
  by_cases h14 : q.op = "RETURN_VAL"
  · rw [if_pos h14]
    exact (Cg.freeRegs_loadValueToReg _ _ _).trans rfl
  rw [if_neg h14]
  by_cases h15 : q.op = "FUNC_END"
  · rw [if_pos h15]
    exact rfl
  rw [if_neg h15]
  by_cases h16 : q.op = "REF"
  · rw [if_pos h16]
    dsimp only [Cg.getReg, Cg.fullRegs]
    simp only [Cg.regsOk, Cg.freeRegs_emit, Cg.freeRegs_getVarOffset,
      Cg.freeRegs_loadValueToReg, Cg.freeRegs_loadAddressToReg, Cg.freeRegs_iteEmit,
      Cg.freeRegs_iteLoad, Cg.freeRegs_releaseReg]
    decide
  rw [if_neg h16]
  by_cases h17 : q.op = "DEREF_LOAD"
  · rw [if_pos h17]
    dsimp only [Cg.getReg, Cg.fullRegs]
    simp only [Cg.regsOk, Cg.freeRegs_emit, Cg.freeRegs_getVarOffset,
      Cg.freeRegs_loadValueToReg, Cg.freeRegs_loadAddressToReg, Cg.freeRegs_iteEmit,
      Cg.freeRegs_iteLoad, Cg.freeRegs_releaseReg]
    decide
  rw [if_neg h17]
  by_cases h18 : q.op = "DEREF_STORE"
  · rw [if_pos h18]
    dsimp only [Cg.getReg, Cg.fullRegs]
    simp only [Cg.regsOk, Cg.freeRegs_emit, Cg.freeRegs_getVarOffset,
      Cg.freeRegs_loadValueToReg, Cg.freeRegs_loadAddressToReg, Cg.freeRegs_iteEmit,
      Cg.freeRegs_iteLoad, Cg.freeRegs_releaseReg]
    decide
  rw [if_neg h18]
  exact rfl

/-- Folding the single-step register lemma over a whole quadruple list:
starting from a full free list, translation never raises the
register-exhaustion exception and every successful prefix hands back all
ten temporary registers. -/
theorem cg_translateQuads_regs (allQ : List Sem.Quad) (fe : Option Cg.CgEntry)
    (qs : List Sem.Quad) (st : Cg.CgState) (h : st.freeRegs = Cg.fullRegs) :
    Cg.regsOk (Cg.translateQuads allQ fe qs st) := by
  induction qs generalizing st with
  | nil => exact h
  | cons q rest ih =>
    unfold Cg.translateQuads
    have hq := cg_translateQuad_regs allQ fe q st h
    cases hstep : Cg.translateQuad allQ fe q st with
    | ok st' =>
      rw [hstep] at hq
      exact ih st' hq
    | error e =>
      rw [hstep] at hq
      exact hq

/-- C10: every temporary register acquired while translating one quadruple is
released before the next quadruple is translated, so from a state whose free
list holds all ten registers, translating any quadruple list leaves the free
list full between and after quadruples and the register-exhaustion exception
of _get_reg is unreachable. -/
theorem c10_no_register_exhaustion (allQ : List Sem.Quad) (fe : Option Cg.CgEntry)
    (qs : List Sem.Quad) (st : Cg.CgState) (h : st.freeRegs = Cg.fullRegs) :
    Cg.translateQuads allQ fe qs st ≠ Except.error Cg.CgErr.regsExhausted ∧
      ∀ st', Cg.translateQuads allQ fe qs st = Except.ok st' →
        st'.freeRegs = Cg.fullRegs := by
  have hreg := cg_translateQuads_regs allQ fe qs st h
  constructor
  · intro hc
    rw [hc] at hreg
    exact hreg rfl
  · intro st' hok
    rw [hok] at hreg
    exact hreg

def c10wState : Cg.CgState :=
  { mipsCode := [], varMap := [], stackOffset := 0, paramCount := 0, symbolMap := [] }

def c10wQuads : List Sem.Quad :=
  [⟨"ADD", Sem.Operand.strVal "a", Sem.Operand.intVal 1, Sem.Operand.strVal "t1"⟩,
   ⟨"ASSIGN", Sem.Operand.strVal "t1", Sem.Operand.noneVal, Sem.Operand.strVal "a"⟩,
   ⟨"RETURN_VAL", Sem.Operand.intVal 0, Sem.Operand.noneVal, Sem.Operand.noneVal⟩]

/-- Witness for C10 at a concrete three-quadruple program. -/
theorem c10_no_register_exhaustion_witness :
    c10wState.freeRegs = Cg.fullRegs ∧
      (Cg.translateQuads c10wQuads none c10wQuads c10wState ≠
          Except.error Cg.CgErr.regsExhausted ∧
        ∀ st', Cg.translateQuads c10wQuads none c10wQuads c10wState = Except.ok st' →
          st'.freeRegs = Cg.fullRegs) :=
  ⟨rfl, c10_no_register_exhaustion c10wQuads none c10wQuads c10wState rfl⟩

namespace TG

/-- mirrors class Production of src/lexparser/lexparser.py: cnt, from_id, to_ids. -/
structure Production where
  cnt : Nat
  from_id : Nat
  to_ids : List Nat
deriving DecidableEq, Repr

/-- mirrors class Item: (production_id, dot_pos, terminal_id-lookahead). -/
structure Item where
  production_id : Nat
  dot_pos : Nat
  terminal_id : Nat
deriving DecidableEq, Repr

/-- Python dict lookup on an insertion-ordered association list. -/
def dictGet {α : Type} (d : List (Nat × α)) (k : Nat) : Option α :=
  match d with
  | [] => none
  | (k', v) :: rest => if k' = k then some v else dictGet rest k

/-- Python dict assignment: update in place if present, else append. -/
def dictSet {α : Type} (d : List (Nat × α)) (k : Nat) (v : α) : List (Nat × α) :=
  match d with
  | [] => [(k, v)]
  | (k', v') :: rest => if k' = k then (k, v) :: rest else (k', v') :: dictSet rest k v

/-- CPython small-int set model: a strictly ascending list; insertion keeps order
and iteration of such a set visits elements in ascending order. -/
def setInsert (n : Nat) : List Nat → List Nat
  | [] => [n]
  | m :: rest => if n < m then n :: m :: rest else if n = m then m :: rest else m :: setInsert n rest

def defaultProd : Production := ⟨0, 0, []⟩

/-- One element addition `self.firsts[A].add(t)` guarded by membership, with changed flag. -/
def addFirstElem (firsts : List (List Nat)) (A t : Nat) : List (List Nat) × Bool :=
  let s := firsts.getD A []
  if t ∈ s then (firsts, false) else (firsts.set A (setInsert t s), true)

/-- Body of find_firsts for one production A -> to_ids: add FIRST(X)\eps for each
prefix symbol while nullable, breaking at the first non-nullable symbol; if the
whole right side is nullable, add the epsilon representative T to FIRST(A). -/
def firstsProdRhs (T A : Nat) : List Nat → List (List Nat) × Bool → List (List Nat) × Bool
  | [], st =>
    let q := addFirstElem st.1 A T
    (q.1, st.2 || q.2)
  | X :: rest, st =>
    let s := st.1.getD X []
    let fc := s.foldl
      (fun (p : List (List Nat) × Bool) t =>
        if t ≠ T then
          let q := addFirstElem p.1 A t
          (q.1, p.2 || q.2)
        else p)
      st
    if T ∈ s then firstsProdRhs T A rest fc else fc

/-- One `while changed` pass of find_firsts over all productions in order. -/
def firstsPass (T : Nat) (prods : List Production) (f : List (List Nat)) :
    List (List Nat) × Bool :=
  prods.foldl (fun st p => firstsProdRhs T p.from_id p.to_ids st) (f, false)

def findFirstsAux (T : Nat) (prods : List Production) : Nat → List (List Nat) → List (List Nat)
  | 0, f => f
  | fuel + 1, f =>
    let fc := firstsPass T prods f
    if fc.2 then findFirstsAux T prods fuel fc.1 else fc.1

/-- find_firsts: FIRST sets indexed by symbol id; terminals 0..T-1 start as
singletons, the NT non-terminals start empty; iterate to the fixpoint. -/
def findFirsts (T NT : Nat) (prods : List Production) (fuel : Nat) : List (List Nat) :=
  findFirstsAux T prods fuel ((List.range T).map (fun i => [i]) ++ List.replicate NT [])

/-- find_firsts_alpha: FIRST of a symbol string, accumulated into acc (the
cleared result set), with the epsilon representative T added when every
symbol of the string is nullable. -/
def firstsAlpha (T : Nat) (f : List (List Nat)) (acc : List Nat) : List Nat → List Nat
  | [] => setInsert T acc
  | X :: rest =>
    let s := f.getD X []
    let acc' := s.foldl (fun a t => if t ≠ T then setInsert t a else a) acc
    if T ∈ s then firstsAlpha T f acc' rest else acc'

/-- Inner double loop of find_closures: for each production j with left side B,
append the item (j, 0, la) for each lookahead la unless already present. -/
def addClosureItemsAux (B : Nat) (las : List Nat) :
    List Production → Nat → List Item → List Item
  | [], _, items => items
  | p :: rest, j, items =>
    let items' :=
      if p.from_id = B then
        las.foldl
          (fun its la =>
            let ni : Item := ⟨j, 0, la⟩
            if ni ∈ its then its else its ++ [ni])
          items
      else items
    addClosureItemsAux B las rest (j + 1) items'

/-- find_closures worklist: process items[i] for increasing i, appending new
items; the fuel bounds the number of while-loop iterations. -/
def findClosuresAux (T : Nat) (prods : List Production) (f : List (List Nat)) :
    Nat → List Item → Nat → List Item
  | 0, items, _ => items
  | fuel + 1, items, i =>
    match items[i]? with
    | none => items
    | some it =>
      let prod := prods.getD it.production_id defaultProd
      let items' :=
        if it.dot_pos < prod.to_ids.length then
          let B := prod.to_ids.getD it.dot_pos 0
          if T ≤ B then
            let las := firstsAlpha T f [] (prod.to_ids.drop (it.dot_pos + 1) ++ [it.terminal_id])
            addClosureItemsAux B las prods 0 items
          else items
        else items
      findClosuresAux T prods f fuel items' (i + 1)

def findClosures (T : Nat) (prods : List Production) (f : List (List Nat)) (fuel : Nat)
    (items : List Item) : List Item :=
  findClosuresAux T prods f fuel items 0

/-- Python Item.__lt__: lexicographic order on (production_id, dot_pos, terminal_id). -/
def itemLt (x y : Item) : Bool :=
  decide (x.production_id < y.production_id ∨
    (x.production_id = y.production_id ∧
      (x.dot_pos < y.dot_pos ∨ (x.dot_pos = y.dot_pos ∧ x.terminal_id < y.terminal_id))))

def insertItem (x : Item) : List Item → List Item
  | [] => [x]
  | y :: rest => if itemLt x y then x :: y :: rest else y :: insertItem x rest

def sortItems (l : List Item) : List Item := l.foldr insertItem []

/-- Closure.__eq__: sorted(items) == sorted(other.items). -/
def closureEq (c d : List Item) : Bool := sortItems c = sortItems d

/-- find_gos inner collection of possible_transitions: an insertion-ordered
dict from shift symbol to the kernel items obtained by moving the dot. -/
def transStep (prods : List Production) (trans : List (Nat × List Item)) (it : Item) :
    List (Nat × List Item) :=
  let prod := prods.getD it.production_id defaultProd
  if it.dot_pos < prod.to_ids.length then
    let X := prod.to_ids.getD it.dot_pos 0
    let ni : Item := ⟨it.production_id, it.dot_pos + 1, it.terminal_id⟩
    match dictGet trans X with
    | some items => dictSet trans X (if ni ∈ items then items else items ++ [ni])
    | none => trans ++ [(X, [ni])]
  else trans

structure GosSt where
  closures : List (List Item)
  gos : List (List (Nat × Nat))
deriving Repr

def listFindIdx (p : List Item → Bool) : List (List Item) → Option Nat
  | [] => none
  | c :: rest =>
    if p c then some 0 else
      match listFindIdx p rest with
      | some j => some (j + 1)
      | none => none

/-- Processing the transitions out of state idx: close each kernel, look the
closure up by Python list.index (sorted-items equality), appending a fresh
state when absent, and record gos[idx][X] = target. -/
def goStep (T fuelC : Nat) (prods : List Production) (f : List (List Nat)) (idx : Nat)
    (st : GosSt) : GosSt :=
  let cur := st.closures.getD idx []
  let trans := cur.foldl (transStep prods) []
  trans.foldl
    (fun (s : GosSt) xc =>
      let full := findClosures T prods f fuelC xc.2
      match listFindIdx (fun c => closureEq c full) s.closures with
      | some j =>
        { s with gos := s.gos.set idx (dictSet (s.gos.getD idx []) xc.1 j) }
      | none =>
        let j := s.closures.length
        { closures := s.closures ++ [full],
          gos := (s.gos ++ [[]]).set idx (dictSet (s.gos.getD idx []) xc.1 j) })
    st

def findGosAux (T fuelC : Nat) (prods : List Production) (f : List (List Nat)) :
    Nat → Nat → GosSt → GosSt
  | 0, _, st => st
  | fuel + 1, idx, st =>
    if idx < st.closures.length then
      findGosAux T fuelC prods f fuel (idx + 1) (goStep T fuelC prods f idx st)
    else st

/-- find_gos: augment with S' -> start, build I0 = closure of [S'->.start, EOF],
and run the canonical-collection worklist. Returns the augmented production
list, the augmented production id and the closures/gos state. -/
def findGos (T fuelC fuel : Nat) (prods : List Production) (f : List (List Nat))
    (eofId sPrimeId : Nat) : List Production × Nat × GosSt :=
  let augId := prods.length
  let prods' := prods ++ [⟨augId, sPrimeId, [(prods.getD 0 defaultProd).from_id]⟩]
  let i0 := findClosures T prods' f fuelC [⟨augId, 0, eofId⟩]
  (prods', augId, findGosAux T fuelC prods' f fuel 0 ⟨[i0], [[]]⟩)

/-- One ACTION-table write of find_gotos for one item, mirroring the code:
a completed augmented item with EOF lookahead writes (acc,0); any other
completed item writes (r, production) unconditionally (the conflict branch is
pass); a shift item writes (s, gos[i][a]) only when the slot is empty or
currently holds a reduce. Action codes: 0 = acc, 1 = s, 2 = r. -/
def actionWrite (augId eofId T : Nat) (prods : List Production) (gosi : List (Nat × Nat))
    (row : List (Nat × (Nat × Nat))) (it : Item) : List (Nat × (Nat × Nat)) :=
  let prod := prods.getD it.production_id defaultProd
  if it.dot_pos = prod.to_ids.length then
    if it.production_id = augId then
      if it.terminal_id = eofId then dictSet row it.terminal_id (0, 0) else row
    else dictSet row it.terminal_id (2, it.production_id)
  else
    let a := prod.to_ids.getD it.dot_pos 0
    if a < T then
      match dictGet gosi a with
      | some j =>
        (match dictGet row a with
         | some ex => if ex ≠ (1, j) then (if ex.1 = 2 then dictSet row a (1, j) else row) else row
         | none => dictSet row a (1, j))
      | none => row
    else row

def fillActionRow (augId eofId T : Nat) (prods : List Production) (gosi : List (Nat × Nat))
    (row : List (Nat × (Nat × Nat))) (its : List Item) : List (Nat × (Nat × Nat)) :=
  its.foldl (actionWrite augId eofId T prods gosi) row

def fillGotoRow (T : Nat) (gosi : List (Nat × Nat)) : List (Nat × Nat) :=
  gosi.foldl (fun row xv => if T ≤ xv.1 then dictSet row xv.1 xv.2 else row) []

/-- find_gotos: build the ACTION and GOTO rows of every state. -/
def findGotos (augId eofId T : Nat) (prods : List Production) (st : GosSt) :
    List (List (Nat × (Nat × Nat))) × List (List (Nat × Nat)) :=
  ((List.range st.closures.length).map
      (fun i => fillActionRow augId eofId T prods (st.gos.getD i []) [] (st.closures.getD i [])),
   (List.range st.closures.length).map (fun i => fillGotoRow T (st.gos.getD i [])))

/-- The value one item would write into the ACTION slot of terminal a, if any:
the spec-side projection of actionWrite onto a single terminal. -/
def writerOf (augId eofId T : Nat) (prods : List Production) (gosi : List (Nat × Nat))
    (a : Nat) (it : Item) : Option (Nat × Nat) :=
  let prod := prods.getD it.production_id defaultProd
  if it.dot_pos = prod.to_ids.length then
    if it.production_id = augId then
      if it.terminal_id = eofId ∧ it.terminal_id = a then some (0, 0) else none
    else if it.terminal_id = a then some (2, it.production_id) else none
  else
    let s := prod.to_ids.getD it.dot_pos 0
    if s = a ∧ s < T then
      match dictGet gosi a with
      | some j => some (1, j)
      | none => none
    else none

/-- How one pending ACTION value combines with the next writer: acc and reduce
writes are unconditional, a shift write only lands on an empty slot or on a
reduce. -/
def applyWriter (v : Option (Nat × Nat)) (w : Nat × Nat) : Option (Nat × Nat) :=
  if w.1 = 1 then
    match v with
    | some ex => if ex ≠ w then (if ex.1 = 2 then some w else some ex) else some ex
    | none => some w
  else some w

def applyWriters (v : Option (Nat × Nat)) (ws : List (Nat × Nat)) : Option (Nat × Nat) :=
  ws.foldl applyWriter v

/-- Declarative last-writer resolution, written from the observed overwrite
discipline: the final ACTION entry is the last unconditional writer (reduce or
accept) unless it is a reduce followed by some shift writer, in which case the
first such shift wins; with no unconditional writer the first shift wins. -/
def specActionEntry (ws : List (Nat × Nat)) : Option (Nat × Nat) :=
  let rws := ws.reverse
  let shifts := rws.takeWhile (fun w => w.1 == 1)
  match rws.dropWhile (fun w => w.1 == 1) with
  | [] => shifts.getLast?
  | u :: _ => if u.1 = 2 ∧ shifts ≠ [] then shifts.getLast? else some u

end TG

theorem tg_dictGet_dictSet {α : Type} (d : List (Nat × α)) (k k' : Nat) (v : α) :
    TG.dictGet (TG.dictSet d k v) k' = if k = k' then some v else TG.dictGet d k' := by
  induction d with
  | nil => rfl
  | cons hd tl ih =>
    obtain ⟨k0, v0⟩ := hd
    by_cases h0 : k0 = k
    · subst h0
      by_cases h1 : k0 = k'
      · simp [TG.dictSet, TG.dictGet, h1]
      · simp [TG.dictSet, TG.dictGet, h1]
    · by_cases h1 : k0 = k'
      · subst h1
        have hkk : ¬ k = k0 := fun h => h0 h.symm
        simp [TG.dictSet, TG.dictGet, h0, hkk]
      · simp [TG.dictSet, TG.dictGet, h0, h1, ih]

theorem tg_dictGet_actionWrite (augId eofId T : Nat) (prods : List TG.Production)
    (gosi : List (Nat × Nat)) (a : Nat) (row : List (Nat × (Nat × Nat))) (it : TG.Item) :
    TG.dictGet (TG.actionWrite augId eofId T prods gosi row it) a
      = (match TG.writerOf augId eofId T prods gosi a it with
         | none => TG.dictGet row a
         | some w => TG.applyWriter (TG.dictGet row a) w) := by
  by_cases h1 : it.dot_pos = (prods[it.production_id]?.getD TG.defaultProd).to_ids.length
  · by_cases h2 : it.production_id = augId
    · by_cases h3 : it.terminal_id = eofId
      · by_cases h4 : it.terminal_id = a
        · have h34 : eofId = a := h3 ▸ h4
          simp [TG.actionWrite, TG.writerOf, TG.applyWriter, h1, h2, h3, h4, h34,
            tg_dictGet_dictSet]
        · have h34 : ¬ eofId = a := fun h => h4 (h3.trans h)
          simp [TG.actionWrite, TG.writerOf, h1, h2, h3, h4, h34, tg_dictGet_dictSet]
      · simp [TG.actionWrite, TG.writerOf, h1, h2, h3, tg_dictGet_dictSet]
    · by_cases h4 : it.terminal_id = a
      · simp [TG.actionWrite, TG.writerOf, TG.applyWriter, h1, h2, h4, tg_dictGet_dictSet]
      · simp [TG.actionWrite, TG.writerOf, h1, h2, h4, tg_dictGet_dictSet]
  · by_cases h5 : (prods[it.production_id]?.getD TG.defaultProd).to_ids[it.dot_pos]?.getD 0 = a
    · by_cases h6 : (prods[it.production_id]?.getD TG.defaultProd).to_ids[it.dot_pos]?.getD 0 < T
      · have h6a : a < T := by rw [h5] at h6; exact h6
        cases hg : TG.dictGet gosi a with
        | some j =>
          cases hr : TG.dictGet row a with
          | some ex =>
            by_cases h7 : ex = (1, j)
            · simp [TG.actionWrite, TG.writerOf, TG.applyWriter, h1, h5, h6, h6a, hg, hr, h7,
                tg_dictGet_dictSet]
            · by_cases h8 : ex.1 = 2
              · simp [TG.actionWrite, TG.writerOf, TG.applyWriter, h1, h5, h6, h6a, hg, hr, h7, h8,
                  tg_dictGet_dictSet]
              · simp [TG.actionWrite, TG.writerOf, TG.applyWriter, h1, h5, h6, h6a, hg, hr, h7, h8,
                  tg_dictGet_dictSet]
          | none =>
            simp [TG.actionWrite, TG.writerOf, TG.applyWriter, h1, h5, h6, h6a, hg, hr,
              tg_dictGet_dictSet]
        | none =>
          simp [TG.actionWrite, TG.writerOf, h1, h5, h6, h6a, hg, tg_dictGet_dictSet]
      · have h6a : ¬ a < T := by rw [h5] at h6; exact h6
        simp [TG.actionWrite, TG.writerOf, h1, h5, h6, h6a, tg_dictGet_dictSet]
    · by_cases h6 : (prods[it.production_id]?.getD TG.defaultProd).to_ids[it.dot_pos]?.getD 0 < T
      · cases hg : TG.dictGet gosi ((prods[it.production_id]?.getD TG.defaultProd).to_ids[it.dot_pos]?.getD 0) with
        | some j =>
          cases hr : TG.dictGet row ((prods[it.production_id]?.getD TG.defaultProd).to_ids[it.dot_pos]?.getD 0) with
          | some ex =>
            by_cases h7 : ex = (1, j)
            · simp [TG.actionWrite, TG.writerOf, h1, h5, h6, hg, hr, h7, tg_dictGet_dictSet]
            · by_cases h8 : ex.1 = 2
              · simp [TG.actionWrite, TG.writerOf, h1, h5, h6, hg, hr, h7, h8, tg_dictGet_dictSet]
              · simp [TG.actionWrite, TG.writerOf, h1, h5, h6, hg, hr, h7, h8, tg_dictGet_dictSet]
          | none =>
            simp [TG.actionWrite, TG.writerOf, h1, h5, h6, hg, hr, tg_dictGet_dictSet]
        | none =>
          simp [TG.actionWrite, TG.writerOf, h1, h5, h6, hg, tg_dictGet_dictSet]
      · simp [TG.actionWrite, TG.writerOf, h1, h5, h6, tg_dictGet_dictSet]

theorem tg_dictGet_fillActionRow (augId eofId T : Nat) (prods : List TG.Production)
    (gosi : List (Nat × Nat)) (a : Nat) :
    ∀ (its : List TG.Item) (row : List (Nat × (Nat × Nat))),
      TG.dictGet (TG.fillActionRow augId eofId T prods gosi row its) a
        = TG.applyWriters (TG.dictGet row a)
            (its.filterMap (TG.writerOf augId eofId T prods gosi a)) := by
  intro its
  induction its with
  | nil => intro row; rfl
  | cons it rest ih =>
    intro row
    show TG.dictGet (TG.fillActionRow augId eofId T prods gosi
        (TG.actionWrite augId eofId T prods gosi row it) rest) a = _
    rw [ih, List.filterMap_cons]
    have hdw := tg_dictGet_actionWrite augId eofId T prods gosi a row it
    cases hw : TG.writerOf augId eofId T prods gosi a it with
    | none =>
      rw [hw] at hdw
      rw [hdw]
    | some w =>
      rw [hw] at hdw
      rw [hdw]
      rfl

theorem tg_getLast_cons_ne_nil {α : Type} (x : α) (l : List α) (h : l ≠ []) :
    (x :: l).getLast? = l.getLast? := by
  cases l with
  | nil => exact absurd rfl h
  | cons y t => rfl

theorem tg_mem_of_getLast {α : Type} {l : List α} {x : α} (h : l.getLast? = some x) :
    x ∈ l := by
  induction l with
  | nil => exact absurd h (by simp)
  | cons a t ih =>
    cases t with
    | nil =>
      simp only [List.getLast?_singleton, Option.some.injEq] at h
      simp [h]
    | cons b t' =>
      rw [List.getLast?_cons_cons] at h
      exact List.mem_cons_of_mem a (ih h)

theorem tg_dropWhile_head_false {α : Type} (p : α → Bool) :
    ∀ (l : List α) (u : α) (t : List α), l.dropWhile p = u :: t → p u = false := by
  intro l
  induction l with
  | nil => intro u t h; exact absurd h (by simp)
  | cons a rest ih =>
    intro u t h
    rw [List.dropWhile_cons] at h
    by_cases hp : p a = true
    · rw [if_pos hp] at h
      exact ih u t h
    · rw [if_neg hp] at h
      injection h with h1 h2
      subst h1
      exact Bool.not_eq_true (p a) ▸ hp

theorem tg_applyWriters_spec (ws : List (Nat × Nat)) :
    TG.applyWriters none ws = TG.specActionEntry ws := by
  induction ws using List.reverseRecOn with
  | nil => rfl
  | append_singleton ws w ih =>
    have hfold : TG.applyWriters none (ws ++ [w])
        = TG.applyWriter (TG.applyWriters none ws) w := by
      simp [TG.applyWriters, List.foldl_append]
    have hrev : (ws ++ [w]).reverse = w :: ws.reverse := by simp
    rw [hfold, ih]
    by_cases hsh : w.1 = 1
    · have hpw : (w.1 == 1) = true := by simp [hsh]
      simp only [TG.specActionEntry, hrev, List.takeWhile_cons, List.dropWhile_cons, hpw,
        if_true]
      cases hd : List.dropWhile (fun x : Nat × Nat => x.1 == 1) ws.reverse with
      | nil =>
        cases ht : List.takeWhile (fun x : Nat × Nat => x.1 == 1) ws.reverse with
        | nil => simp [TG.applyWriter, hsh]
        | cons s t =>
          have hne : (s :: t) ≠ ([] : List (Nat × Nat)) := by simp
          have hx : (s :: t).getLast? = some ((s :: t).getLast hne) :=
            List.getLast?_eq_getLast (s :: t) hne
          have hxmem : (s :: t).getLast hne ∈ s :: t := List.getLast_mem hne
          have hx1 : ((s :: t).getLast hne).1 = 1 := by
            have hmem2 : (s :: t).getLast hne
                ∈ List.takeWhile (fun x : Nat × Nat => x.1 == 1) ws.reverse := by
              rw [ht]; exact hxmem
            have := List.mem_takeWhile_imp hmem2
            simpa using this
          rw [tg_getLast_cons_ne_nil w (s :: t) hne, hx]
          by_cases hxw : (s :: t).getLast hne = w
          · simp [TG.applyWriter, hsh, hxw]
          · simp [TG.applyWriter, hsh, hxw, hx1]
      | cons u rest2 =>
        have hu : (fun x : Nat × Nat => x.1 == 1) u = false :=
          tg_dropWhile_head_false _ ws.reverse u rest2 hd
        have hu1 : ¬ u.1 = 1 := by simpa using hu
        by_cases hu2 : u.1 = 2
        · cases ht : List.takeWhile (fun x : Nat × Nat => x.1 == 1) ws.reverse with
          | nil =>
            have huw : ¬ u = w := fun h => hu1 (h ▸ hsh)
            simp [TG.applyWriter, hsh, hu2, huw]
          | cons s t =>
            have hne : (s :: t) ≠ ([] : List (Nat × Nat)) := by simp
            have hx : (s :: t).getLast? = some ((s :: t).getLast hne) :=
              List.getLast?_eq_getLast (s :: t) hne
            have hxmem : (s :: t).getLast hne ∈ s :: t := List.getLast_mem hne
            have hx1 : ((s :: t).getLast hne).1 = 1 := by
              have hmem2 : (s :: t).getLast hne
                  ∈ List.takeWhile (fun x : Nat × Nat => x.1 == 1) ws.reverse := by
                rw [ht]; exact hxmem
              have := List.mem_takeWhile_imp hmem2
              simpa using this
            rw [tg_getLast_cons_ne_nil w (s :: t) hne, hx]
            by_cases hxw : (s :: t).getLast hne = w
            · simp [TG.applyWriter, hsh, hu2, hxw]
            · simp [TG.applyWriter, hsh, hu2, hxw, hx1]
        · simp [TG.applyWriter, hsh, hu2]
    · have hpw : (w.1 == 1) = false := by simp [hsh]
      simp [TG.specActionEntry, hrev, TG.applyWriter, hsh, hpw]

/-- C1 (amended): ACTION-table conflict resolution in find_gotos is last-writer-wins
in the state's item order, not shift-over-reduce: the final ACTION entry of state
items `its` at terminal a equals the declarative rightmost-writer resolution, in
which a completed item (reduce or accept) unconditionally overwrites whatever is
present, while a shift writer only lands on an empty slot or on a reduce. In
particular a completed item listed after a shift item wins the shift/reduce
conflict, and a reduce/reduce conflict keeps the production of the last listed
completed item, not the lower-numbered one. -/
theorem c1_action_last_writer (augId eofId T : Nat) (prods : List TG.Production)
    (gosi : List (Nat × Nat)) (its : List TG.Item) (a : Nat) :
    TG.dictGet (TG.fillActionRow augId eofId T prods gosi [] its) a
      = TG.specActionEntry (its.filterMap (TG.writerOf augId eofId T prods gosi a)) := by
  rw [tg_dictGet_fillActionRow]
  exact tg_applyWriters_spec _

def c1prods : List TG.Production := [⟨0, 4, [5, 1]⟩, ⟨1, 5, [0, 1, 2]⟩, ⟨2, 5, [0]⟩]

def c1firsts : List (List Nat) := TG.findFirsts 4 2 c1prods 10

def c1tg : List TG.Production × Nat × TG.GosSt := TG.findGos 4 50 50 c1prods c1firsts 3 6

def c1closures : List (List TG.Item) := c1tg.2.2.closures

def c1gos : List (List (Nat × Nat)) := c1tg.2.2.gos

def c1action : List (List (Nat × (Nat × Nat))) := (TG.findGotos 3 3 4 c1tg.1 c1tg.2.2).1

/-- C1 counterexample: grammar S -> A b, A -> a b c, A -> a over terminals
a,b,c,EOF (ids 0-3, T = 4, S = 4, A = 5, S' = 6, EOF = 3). In state 3 both a
shift item (A -> a . b c, b) with gos[3][b] = 5 and a completed item
(A -> a . , b) apply at terminal b (id 1), yet the final ACTION[3][b] is the
reduce (r, 2) written last, not the shift (s, 5) the claim requires. -/
theorem c1_counterexample :
    ((⟨1, 1, 1⟩ : TG.Item) ∈ c1closures.getD 3 []
        ∧ (c1tg.1.getD 1 TG.defaultProd).to_ids.getD 1 0 = 1
        ∧ TG.dictGet (c1gos.getD 3 []) 1 = some 5)
      ∧ ((⟨2, 1, 1⟩ : TG.Item) ∈ c1closures.getD 3 []
        ∧ (c1tg.1.getD 2 TG.defaultProd).to_ids.length = 1)
      ∧ TG.dictGet (c1action.getD 3 []) 1 = some (2, 2)
      ∧ some ((2 : Nat), (2 : Nat)) ≠ some ((1 : Nat), (5 : Nat)) := by
  decide

namespace Cache

/-- The cache file on disk: absent, or present with an mtime and either a
deserializable blob of tables (some t) or undeserializable bytes (none). -/
def cacheMtime {τ : Type} : Option (Nat × Option τ) → Nat
  | some (m, _) => m
  | none => 0

/-- models the caching path of Parser.__init__ (src/lexparser/lexparser.py
61-129): if the cache mtime (0 when the file is missing) is at least the
grammar mtime, load and return the pickled tables, falling through to a
rebuild when opening or unpickling fails; otherwise rebuild the tables with
the table-generation pipeline (the abstract build applied to the grammar) and
pickle them to the cache file, which then carries the write-time mtime. -/
def parserInit {γ τ : Type} (build : γ → τ) (g : γ) (cache : Option (Nat × Option τ))
    (prodMtime writeMtime : Nat) : τ × Option (Nat × Option τ) :=
  if prodMtime ≤ cacheMtime cache then
    match cache with
    | some (_, some t) => (t, cache)
    | _ => ((build g), some (writeMtime, some (build g)))
  else ((build g), some (writeMtime, some (build g)))

/-- One whole compilation: construct a Parser (threading the cache file) and
run the rest of the pipeline — lexing, parsing with semantic actions and code
generation, all of which use fresh per-run instances and are pure functions of
the tables and the source text. -/
def compileOnce {γ τ σ α : Type} (build : γ → τ) (rest : τ → σ → α) (g : γ) (src : σ)
    (cache : Option (Nat × Option τ)) (prodMtime writeMtime : Nat) :
    α × Option (Nat × Option τ) :=
  let r := parserInit build g cache prodMtime writeMtime
  (rest r.1 src, r.2)

end Cache

theorem cache_parserInit_stable {γ τ : Type} (build : γ → τ) (g : γ)
    (cache : Option (Nat × Option τ)) (pm wm wm2 : Nat) (h : pm ≤ wm) :
    (Cache.parserInit build g (Cache.parserInit build g cache pm wm).2 pm wm2).1
      = (Cache.parserInit build g cache pm wm).1 := by
  cases cache with
  | none => simp [Cache.parserInit, Cache.cacheMtime, h]
  | some p =>
    obtain ⟨m, b⟩ := p
    cases b with
    | none => simp [Cache.parserInit, Cache.cacheMtime, h]
    | some t =>
      by_cases hm : pm ≤ m
      · simp [Cache.parserInit, Cache.cacheMtime, hm]
      · simp [Cache.parserInit, Cache.cacheMtime, hm, h]

/-- C6: the parser-table cache round-trips. First conjunct: the constructor
reuses the cache exactly when the cache mtime is at least the grammar mtime
and the blob deserializes, and otherwise rebuilds and writes the fresh tables.
Second conjunct: when the written cache is at least as new as the grammar, a
parser constructed from the cache left by a previous construction has exactly
the same tables as that previous (freshly built or reused) parser. -/
theorem c6_cache_round_trip {γ τ : Type} (build : γ → τ) (g : γ)
    (cache : Option (Nat × Option τ)) (pm wm : Nat) :
    (Cache.parserInit build g cache pm wm
      = (match cache with
         | some (m, some t) =>
           if pm ≤ m then (t, cache) else ((build g), some (wm, some (build g)))
         | _ => ((build g), some (wm, some (build g)))))
    ∧ (pm ≤ wm →
        (Cache.parserInit build g (Cache.parserInit build g cache pm wm).2 pm wm).1
          = (Cache.parserInit build g cache pm wm).1) := by
  constructor
  · cases cache with
    | none => simp [Cache.parserInit, Cache.cacheMtime]
    | some p =>
      obtain ⟨m, b⟩ := p
      cases b with
      | none => simp [Cache.parserInit, Cache.cacheMtime]
      | some t =>
        by_cases hm : pm ≤ m
        · simp [Cache.parserInit, Cache.cacheMtime, hm]
        · simp [Cache.parserInit, Cache.cacheMtime, hm]
  · intro h
    exact cache_parserInit_stable build g cache pm wm wm h

/-- Witness for C6 at concrete values: a valid fresh cache (mtime 5, blob 7)
with grammar mtime 3 is reused unchanged, and a second construction returns
the same tables. -/
theorem c6_cache_round_trip_witness :
    3 ≤ 10
    ∧ Cache.parserInit (fun n : Nat => n + 1) 0 (some (5, some 7)) 3 10
        = (7, some (5, some 7))
    ∧ (Cache.parserInit (fun n : Nat => n + 1) 0
          (Cache.parserInit (fun n : Nat => n + 1) 0 (some (5, some 7)) 3 10).2 3 10).1
        = (Cache.parserInit (fun n : Nat => n + 1) 0 (some (5, some 7)) 3 10).1 := by
  have h := c6_cache_round_trip (fun n : Nat => n + 1) 0 (some (5, some 7)) 3 10
  exact ⟨by decide, by rw [h.1]; rfl, h.2 (by decide)⟩

/-- C5: two-run determinism of the whole pipeline. Each run builds its own
lexer/parser/semantic-analyzer/code-generator instances, modeled by the pure
rest function; the only state shared between runs is the parser-table cache
file, and as long as the cache written by the first run is at least as new as
the grammar file, the second run produces identical assembly. -/
theorem c5_pipeline_deterministic {γ τ σ α : Type} (build : γ → τ) (rest : τ → σ → α)
    (g : γ) (src : σ) (cache : Option (Nat × Option τ)) (pm wm wm2 : Nat) (h : pm ≤ wm) :
    (Cache.compileOnce build rest g src
        (Cache.compileOnce build rest g src cache pm wm).2 pm wm2).1
      = (Cache.compileOnce build rest g src cache pm wm).1 := by
  simp only [Cache.compileOnce]
  rw [cache_parserInit_stable build g cache pm wm wm2 h]

/-- Witness for C5 at concrete values with an initially missing cache file. -/
theorem c5_pipeline_deterministic_witness :
    0 ≤ 3
    ∧ (Cache.compileOnce (fun n : Nat => n + 1) (fun t s => t * 10 + s) 0 7
          (Cache.compileOnce (fun n : Nat => n + 1) (fun t s => t * 10 + s) 0 7
            none 0 3).2 0 9).1
        = (Cache.compileOnce (fun n : Nat => n + 1) (fun t s => t * 10 + s) 0 7
            none 0 3).1 :=
  ⟨by decide,
   c5_pipeline_deterministic (fun n : Nat => n + 1) (fun t s => t * 10 + s) 0 7
     none 0 3 9 (by decide)⟩

namespace Lx

/-- mirrors the tokenType enum of src/lexer/token.py. -/
inductive TokT where
  | IDENTIFIER | EXCLAMATION | MACRO_IDENTIFIER | INTEGER_CONSTANT
  | FLOATING_POINT_CONSTANT | CHAR_CONSTANT | STRING_CONSTANT
  | S_COMMENT | LM_COMMENT | RM_COMMENT | EOF | UNKNOWN
  | I32 | LET | IF | ELSE | WHILE | RETURN | MUT | FN | FOR | IN | LOOP | BREAK | CONTINUE
  | ASSIGN | PLUS | MINUS | MULT | DIV | EQ | GT | GE | LT | LE | NEQ
  | LPAREN | RPAREN | LBRACE | RBRACE | LBRACK | RBRACK
  | SEMICOLON | COLON | COMMA | ARROW | DOT | DOTDOT
deriving DecidableEq, Repr

/-- A token: its text and kind (the id counter and location are not modeled). -/
structure Tok where
  content : List Char
  prop : TokT
deriving DecidableEq, Repr

/-- Python \s over the source's ASCII alphabet. -/
def isSpace (c : Char) : Bool :=
  c ∈ [' ', '\t', '\n', '\r', '\x0b', '\x0c']

def isDigit (c : Char) : Bool := '0' ≤ c && c ≤ '9'

def isAlpha (c : Char) : Bool := ('A' ≤ c && c ≤ 'Z') || ('a' ≤ c && c ≤ 'z')

def isWordChar (c : Char) : Bool := isAlpha c || isDigit c || c = '_'

def isIdentStart (c : Char) : Bool := isAlpha c || c = '_'

def startsWith : List Char → List Char → Bool
  | [], _ => true
  | _ :: _, [] => false
  | a :: pre, b :: l => a = b && startsWith pre l

/-- tokenKeywords of src/lexer/token.py, in its insertion order. -/
def kwPairs : List (List Char × TokT) :=
  [("i32".toList, .I32), ("let".toList, .LET), ("if".toList, .IF), ("else".toList, .ELSE),
   ("while".toList, .WHILE), ("return".toList, .RETURN), ("mut".toList, .MUT),
   ("fn".toList, .FN), ("for".toList, .FOR), ("in".toList, .IN), ("loop".toList, .LOOP),
   ("break".toList, .BREAK), ("continue".toList, .CONTINUE)]

/-- tokenSymbols of src/lexer/token.py. -/
def symPairs : List (List Char × TokT) :=
  [("=".toList, .ASSIGN), ("+".toList, .PLUS), ("-".toList, .MINUS), ("*".toList, .MULT),
   ("/".toList, .DIV), ("==".toList, .EQ), (">".toList, .GT), (">=".toList, .GE),
   ("<".toList, .LT), ("<=".toList, .LE), ("!=".toList, .NEQ), ("(".toList, .LPAREN),
   (")".toList, .RPAREN), ("\x7b".toList, .LBRACE), ("\x7d".toList, .RBRACE),
   ("[".toList, .LBRACK), ("]".toList, .RBRACK), (";".toList, .SEMICOLON),
   (":".toList, .COLON), (",".toList, .COMMA), ("->".toList, .ARROW), (".".toList, .DOT),
   ("..".toList, .DOTDOT), ("!".toList, .EXCLAMATION)]

def kwList : List (List Char) := kwPairs.map (fun p => p.1)

def lookupTok : List (List Char × TokT) → List Char → Option TokT
  | [], _ => none
  | (k, t) :: rest, m => if m = k then some t else lookupTok rest m

/-- Resolution of a None-tagged match: keywords dict, then symbols dict, else UNKNOWN. -/
def classifyNone (m : List Char) : TokT :=
  match lookupTok kwPairs m with
  | some t => t
  | none =>
    match lookupTok symPairs m with
    | some t => t
    | none => TokT.UNKNOWN

def matchWs (l : List Char) : Option (List Char × List Char) :=
  match l.span isSpace with
  | ([], _) => none
  | (m, r) => some (m, r)

def matchLineComment : List Char → Option (List Char × List Char)
  | '/' :: '/' :: rest =>
    some ('/' :: '/' :: rest.takeWhile (fun c => ¬ c = '\n'),
      rest.dropWhile (fun c => ¬ c = '\n'))
  | _ => none

def matchCharLit : List Char → Option (List Char × List Char)
  | '\'' :: '\\' :: c :: q :: rest =>
    if c = '\n' then none
    else if q = '\'' then some (['\'', '\\', c, '\''], rest) else none
  | '\'' :: c :: q :: rest =>
    if c = '\\' ∨ c = '\'' then none
    else if q = '\'' then some (['\'', c, '\''], rest) else none
  | _ => none

def scanStr : List Char → Option (List Char × List Char)
  | [] => none
  | c :: rest =>
    if c = '"' then some (['"'], rest)
    else if c = '\\' then
      match rest with
      | [] => none
      | c2 :: rest2 =>
        if c2 = '\n' then none
        else
          match scanStr rest2 with
          | some (m, r) => some ('\\' :: c2 :: m, r)
          | none => none
    else
      match scanStr rest with
      | some (m, r) => some (c :: m, r)
      | none => none

def matchStringLit : List Char → Option (List Char × List Char)
  | '"' :: rest =>
    (match scanStr rest with
     | some (m, r) => some ('"' :: m, r)
     | none => none)
  | _ => none

/-- The keyword alternation tried left to right, each alternative guarded by the
trailing word boundary. -/
def kwTry : List (List Char) → List Char → Option (List Char × List Char)
  | [], _ => none
  | k :: ks, l =>
    if startsWith k l then
      match l.drop k.length with
      | [] => some (k, [])
      | c :: r2 => if isWordChar c then kwTry ks l else some (k, c :: r2)
    else kwTry ks l

def matchKw (prev : Option Char) (l : List Char) : Option (List Char × List Char) :=
  let boundary := match prev with | none => true | some c => ¬ isWordChar c
  if boundary then kwTry kwList l else none

def matchMacro : List Char → Option (List Char × List Char)
  | [] => none
  | c :: cs =>
    if isIdentStart c then
      match (c :: cs).span isWordChar with
      | (m, '!' :: r) => some (m ++ ['!'], r)
      | _ => none
    else none

def matchIdent : List Char → Option (List Char × List Char)
  | [] => none
  | c :: cs =>
    if isIdentStart c then some (((c :: cs).span isWordChar).1, ((c :: cs).span isWordChar).2)
    else none

def matchFloat (l : List Char) : Option (List Char × List Char) :=
  match l.span isDigit with
  | ([], _) => none
  | (d1, '.' :: r2) =>
    (match r2.span isDigit with
     | ([], _) => none
     | (d2, r3) =>
       let base := d1 ++ '.' :: d2
       match r3 with
       | [] => some (base, [])
       | e :: r4 =>
         if e = 'e' ∨ e = 'E' then
           match r4 with
           | [] => some (base, r3)
           | s :: r5 =>
             if s = '+' ∨ s = '-' then
               match r5.span isDigit with
               | ([], _) => some (base, r3)
               | (d3, r6) => some (base ++ e :: s :: d3, r6)
             else
               match r4.span isDigit with
               | ([], _) => some (base, r3)
               | (d3, r6) => some (base ++ e :: d3, r6)
         else some (base, r3))
  | (_, _) => none

def matchInt (l : List Char) : Option (List Char × List Char) :=
  match l.span isDigit with
  | ([], _) => none
  | (m, r) => some (m, r)

def opsTwo : List (List Char) :=
  ["==".toList, "!=".toList, ">=".toList, "<=".toList, "->".toList, "..".toList]

def tryTwo : List (List Char) → List Char → Option (List Char × List Char)
  | [], _ => none
  | o :: os, l => if startsWith o l then some (o, l.drop o.length) else tryTwo os l

def opSingles : List Char := "+-*/=><!".toList

def matchOps (l : List Char) : Option (List Char × List Char) :=
  match tryTwo opsTwo l with
  | some p => some p
  | none =>
    match l with
    | [] => none
    | c :: rest => if c ∈ opSingles then some ([c], rest) else none

def punctChars : List Char := "()\x7b\x7d[];:,.".toList

def matchPunct : List Char → Option (List Char × List Char)
  | [] => none
  | c :: rest => if c ∈ punctChars then some ([c], rest) else none

def matchHash : List Char → Option (List Char × List Char)
  | '#' :: rest => some (['#'], rest)
  | _ => none

/-- The rules tried before the block-comment check: whitespace and // comments. -/
def preMatchers (l : List Char) : Option (List Char × List Char × TokT) :=
  ((matchWs l).map (fun p => (p.1, p.2, classifyNone p.1))) <|>
  ((matchLineComment l).map (fun p => (p.1, p.2, TokT.S_COMMENT)))

/-- The rules tried after the block-comment check, in the token_exprs order. -/
def postMatchers (prev : Option Char) (l : List Char) : Option (List Char × List Char × TokT) :=
  ((matchCharLit l).map (fun p => (p.1, p.2, TokT.CHAR_CONSTANT))) <|>
  ((matchStringLit l).map (fun p => (p.1, p.2, TokT.STRING_CONSTANT))) <|>
  ((matchKw prev l).map (fun p => (p.1, p.2, classifyNone p.1))) <|>
  ((matchMacro l).map (fun p => (p.1, p.2, TokT.MACRO_IDENTIFIER))) <|>
  ((matchIdent l).map (fun p => (p.1, p.2, TokT.IDENTIFIER))) <|>
  ((matchFloat l).map (fun p => (p.1, p.2, TokT.FLOATING_POINT_CONSTANT))) <|>
  ((matchInt l).map (fun p => (p.1, p.2, TokT.INTEGER_CONSTANT))) <|>
  ((matchOps l).map (fun p => (p.1, p.2, classifyNone p.1))) <|>
  ((matchPunct l).map (fun p => (p.1, p.2, classifyNone p.1))) <|>
  ((matchHash l).map (fun p => (p.1, p.2, TokT.EOF)))

/-- One line of handle_block_comment: consume characters tracking nesting depth;
none means the comment closed on this line (the remainder of the line is
dropped by the caller), some d means the line ended with the comment still
open at depth d. -/
def scanBCLine : Nat → List Char → List Char × Option Nat
  | depth, [] => ([], some depth)
  | depth, [c] =>
    let r := scanBCLine depth []
    (c :: r.1, r.2)
  | depth, c1 :: c2 :: rest =>
    if c1 = '/' ∧ c2 = '*' then
      let r := scanBCLine (depth + 1) rest
      ('/' :: '*' :: r.1, r.2)
    else if c1 = '*' ∧ c2 = '/' then
      if depth = 1 then (['*', '/'], none)
      else
        let r := scanBCLine (depth - 1) rest
        ('*' :: '/' :: r.1, r.2)
    else
      let r := scanBCLine depth (c2 :: rest)
      (c1 :: r.1, r.2)

/-- handle_block_comment: the comment text after the opening delimiter, a
newline closing each fully consumed line; an unclosed comment consumes to the
end of the input. -/
def bcText (depth : Nat) (l : List Char) (ls : List (List Char)) : List Char :=
  match scanBCLine depth l with
  | (t, none) => t
  | (t, some d) =>
    t ++ '\n' :: (match ls with
                  | [] => []
                  | l2 :: ls2 => bcText d l2 ls2)

/-- Whether the block comment scan starting at depth d closes before the end
of the input. -/
def bcClosed (d : Nat) (l : List Char) (ls : List (List Char)) : Bool :=
  match scanBCLine d l with
  | (_, none) => true
  | (_, some d2) =>
    match ls with
    | [] => false
    | l2 :: ls2 => bcClosed d2 l2 ls2

/-- tokenize_line of src/lexer/lexer.py: match the rules in order at each
position, skipping whitespace, emitting a token otherwise, falling back to a
one-character UNKNOWN token; an encountered block comment opener emits one
LM_COMMENT token holding the whole comment and ends the line's tokenization
(the second component flags that early return). -/
def tokenizeLineAux (nextLines : List (List Char)) :
    Nat → Option Char → List Char → List Tok × Bool
  | 0, _, _ => ([], false)
  | _ + 1, _, [] => ([], false)
  | fuel + 1, prev, c :: cs =>
    match preMatchers (c :: cs) with
    | some (m, r, t) =>
      let rest := tokenizeLineAux nextLines fuel m.getLast? r
      (if t = TokT.UNKNOWN ∧ m.all isSpace then rest.1 else ⟨m, t⟩ :: rest.1, rest.2)
    | none =>
      if startsWith "/*".toList (c :: cs) then
        ([⟨'/' :: '*' :: bcText 1 ((c :: cs).drop 2) nextLines, TokT.LM_COMMENT⟩], true)
      else
        match postMatchers prev (c :: cs) with
        | some (m, r, t) =>
          let rest := tokenizeLineAux nextLines fuel m.getLast? r
          (if t = TokT.UNKNOWN ∧ m.all isSpace then rest.1 else ⟨m, t⟩ :: rest.1, rest.2)
        | none =>
          let rest := tokenizeLineAux nextLines fuel (some c) cs
          (⟨[c], TokT.UNKNOWN⟩ :: rest.1, rest.2)

def tokenizeLine (nextLines : List (List Char)) (fuel : Nat) (prev : Option Char)
    (l : List Char) : List Tok :=
  (tokenizeLineAux nextLines fuel prev l).1

def getLexAux : List (List Char) → List Tok
  | [] => []
  | l :: ls => (tokenizeLineAux ls (l.length + 1) none l).1 ++ getLexAux ls

/-- getLex: tokenize every line (the loop resets line_idx each iteration, so
each line is tokenized independently of comment consumption), append the
synthetic EOF token, and report success iff no UNKNOWN token was produced. -/
def getLex (lines : List (List Char)) : List Tok × Bool :=
  let ts := getLexAux lines
  (ts ++ [⟨['#'], TokT.EOF⟩], ts.all (fun t => ¬ t.prop = TokT.UNKNOWN))

/-- Checks that token contents, in order, cover a line completely up to skipped
whitespace: byte-for-byte reconstruction of the line from the token contents. -/
def coversAux : List (List Char) → List Char → Bool
  | [], l => l.all isSpace
  | c :: cs, l =>
    let l2 := l.dropWhile isSpace
    startsWith c l2 && coversAux cs (l2.drop c.length)

def joinNL : List (List Char) → List Char
  | [] => []
  | l :: ls => l ++ '\n' :: joinNL ls

end Lx

theorem lx_scanBCLine_open : ∀ (d : Nat) (l : List Char) (t : List Char) (d2 : Nat),
    Lx.scanBCLine d l = (t, some d2) → t = l := by
  intro d l
  induction d, l using Lx.scanBCLine.induct with
  | case1 depth =>
    intro t d2 h
    simp only [Lx.scanBCLine] at h
    rw [Prod.mk.injEq] at h
    exact h.1.symm
  | case2 depth c ih =>
    intro t d2 h
    simp only [Lx.scanBCLine] at h
    rw [Prod.mk.injEq] at h
    exact h.1.symm
  | case3 depth c1 c2 rest hc ih =>
    intro t d2 h
    simp only [Lx.scanBCLine, if_pos hc] at h
    cases hr : Lx.scanBCLine (depth + 1) rest with
    | mk t1 o1 =>
      rw [hr] at h
      dsimp only at h
      rw [Prod.mk.injEq] at h
      obtain ⟨rfl, rfl⟩ := hc
      rw [← h.1, ih t1 d2 (by rw [hr, h.2])]
  | case4 c1 c2 rest hn1 hc2 =>
    intro t d2 h
    simp only [Lx.scanBCLine, if_neg hn1, if_pos hc2, if_pos rfl] at h
    rw [Prod.mk.injEq] at h
    exact absurd h.2 (by simp)
  | case5 depth c1 c2 rest hn1 hc2 hd ih =>
    intro t d2 h
    simp only [Lx.scanBCLine, if_neg hn1, if_pos hc2, if_neg hd] at h
    cases hr : Lx.scanBCLine (depth - 1) rest with
    | mk t1 o1 =>
      rw [hr] at h
      dsimp only at h
      rw [Prod.mk.injEq] at h
      obtain ⟨rfl, rfl⟩ := hc2
      rw [← h.1, ih t1 d2 (by rw [hr, h.2])]
  | case6 depth c1 c2 rest hn1 hn2 ih =>
    intro t d2 h
    simp only [Lx.scanBCLine, if_neg hn1, if_neg hn2] at h
    cases hr : Lx.scanBCLine depth (c2 :: rest) with
    | mk t1 o1 =>
      rw [hr] at h
      dsimp only at h
      rw [Prod.mk.injEq] at h
      rw [← h.1, ih t1 d2 (by rw [hr, h.2])]

theorem lx_bcText_unclosed : ∀ (ls : List (List Char)) (d : Nat) (l : List Char),
    Lx.bcClosed d l ls = false →
    Lx.bcText d l ls = l ++ '\n' :: Lx.joinNL ls := by
  intro ls
  induction ls with
  | nil =>
    intro d l h
    unfold Lx.bcClosed at h
    unfold Lx.bcText Lx.joinNL
    cases hr : Lx.scanBCLine d l with
    | mk t o =>
      rw [hr] at h
      cases o with
      | none => simp at h
      | some d2 =>
        rw [lx_scanBCLine_open d l t d2 hr]
  | cons l2 ls2 ih =>
    intro d l h
    unfold Lx.bcClosed at h
    unfold Lx.bcText
    cases hr : Lx.scanBCLine d l with
    | mk t o =>
      rw [hr] at h
      cases o with
      | none => simp at h
      | some d2 =>
        dsimp only at h
        rw [lx_scanBCLine_open d l t d2 hr]
        dsimp only
        rw [ih d2 l2 h, Lx.joinNL]

/-- C3 (amended): a block comment opener whose scan never balances before the
end of the input makes the lexer emit exactly one token for the whole rest of
the input: its kind is LM_COMMENT, not UNKNOWN, and its content is the opener
followed by the entire consumed span, each consumed line closed by a newline;
no UNKNOWN token arises from it, so it leaves the lexing success flag true. -/
theorem c3_unbalanced_comment (nextLines : List (List Char)) (rest : List Char)
    (prev : Option Char) (fuel : Nat)
    (h : Lx.bcClosed 1 rest nextLines = false) :
    Lx.tokenizeLineAux nextLines (fuel + 1) prev ('/' :: '*' :: rest)
      = ([⟨'/' :: '*' :: (rest ++ '\n' :: Lx.joinNL nextLines), Lx.TokT.LM_COMMENT⟩], true)
    ∧ ∀ t ∈ (Lx.tokenizeLineAux nextLines (fuel + 1) prev ('/' :: '*' :: rest)).1,
        ¬ t.prop = Lx.TokT.UNKNOWN := by
  have h1 : Lx.tokenizeLineAux nextLines (fuel + 1) prev ('/' :: '*' :: rest)
      = ([⟨'/' :: '*' :: Lx.bcText 1 rest nextLines, Lx.TokT.LM_COMMENT⟩], true) := rfl
  rw [h1, lx_bcText_unclosed nextLines 1 rest h]
  refine ⟨rfl, ?_⟩
  intro t ht
  rw [List.mem_singleton] at ht
  rw [ht]
  exact fun hh => nomatch hh

/-- Witness for C3 at the single unterminated line /*x. -/
theorem c3_unbalanced_comment_witness :
    Lx.bcClosed 1 ['x'] [] = false
    ∧ (Lx.tokenizeLineAux [] 1 none ('/' :: '*' :: ['x'])
        = ([⟨'/' :: '*' :: (['x'] ++ '\n' :: Lx.joinNL []), Lx.TokT.LM_COMMENT⟩], true)
      ∧ ∀ t ∈ (Lx.tokenizeLineAux [] 1 none ('/' :: '*' :: ['x'])).1,
          ¬ t.prop = Lx.TokT.UNKNOWN) :=
  ⟨by decide, c3_unbalanced_comment [] ['x'] none 0 (by decide)⟩

/-- C3 counterexample: the input consisting of the single line /* is an
unbalanced block comment, yet the lexer emits an LM_COMMENT token (not
UNKNOWN) for it and the success flag is true, not false. -/
theorem c3_counterexample :
    Lx.getLex [['/', '*']]
      = ([⟨['/', '*', '\n'], Lx.TokT.LM_COMMENT⟩, ⟨['#'], Lx.TokT.EOF⟩], true)
    ∧ ¬ Lx.TokT.LM_COMMENT = Lx.TokT.UNKNOWN := by
  decide

theorem lx_startsWith_drop : ∀ (pre l : List Char),
    Lx.startsWith pre l = true → l = pre ++ l.drop pre.length := by
  intro pre
  induction pre with
  | nil => intro l _; rfl
  | cons a pre ih =>
    intro l h
    cases l with
    | nil => exact absurd h (by simp [Lx.startsWith])
    | cons b l2 =>
      simp only [Lx.startsWith, Bool.and_eq_true, decide_eq_true_eq] at h
      obtain ⟨rfl, h2⟩ := h
      simpa using ih l2 h2

theorem lx_startsWith_self : ∀ (m r : List Char), Lx.startsWith m (m ++ r) = true := by
  intro m r
  induction m with
  | nil => rfl
  | cons a m ih => simp [Lx.startsWith, ih]

theorem lx_span_split (p : Char → Bool) (l m r : List Char) (h : l.span p = (m, r)) :
    l = m ++ r ∧ m.all p = true := by
  rw [List.span_eq_take_drop, Prod.mk.injEq] at h
  obtain ⟨h1, h2⟩ := h
  constructor
  · rw [← h1, ← h2, List.takeWhile_append_dropWhile]
  · rw [← h1]
    rw [List.all_eq_true]
    intro x hx
    exact List.mem_takeWhile_imp hx

/-- Combined correctness of one rule match for line reconstruction: the match
splits the line, is nonempty, and is either skippable whitespace or starts with
a non-space character. -/
def LxGood (l m r : List Char) (t : Lx.TokT) : Prop :=
  l = m ++ r ∧ m ≠ [] ∧
    (t = Lx.TokT.UNKNOWN ∧ m.all Lx.isSpace = true ∨ Lx.isSpace (m.headD ' ') = false)

theorem lx_lookupTok_mem : ∀ (ps : List (List Char × Lx.TokT)) (m : List Char) (t : Lx.TokT),
    Lx.lookupTok ps m = some t → (m, t) ∈ ps := by
  intro ps
  induction ps with
  | nil => intro m t h; exact absurd h (by simp [Lx.lookupTok])
  | cons p rest ih =>
    intro m t h
    obtain ⟨k, tk⟩ := p
    rw [Lx.lookupTok] at h
    by_cases hk : m = k
    · rw [if_pos hk] at h
      cases h
      rw [hk]
      exact List.mem_cons_self _ _
    · rw [if_neg hk] at h
      exact List.mem_cons_of_mem _ (ih m t h)

theorem lx_classify_space (m : List Char) (hm : m ≠ []) (hsp : m.all Lx.isSpace = true) :
    Lx.classifyNone m = Lx.TokT.UNKNOWN := by
  have hhead : Lx.isSpace (m.headD ' ') = true := by
    cases m with
    | nil => exact absurd rfl hm
    | cons c cs =>
      rw [List.all_cons, Bool.and_eq_true] at hsp
      exact hsp.1
  unfold Lx.classifyNone
  cases hk : Lx.lookupTok Lx.kwPairs m with
  | some t =>
    have hmem := lx_lookupTok_mem _ _ _ hk
    have hall : ∀ p ∈ Lx.kwPairs, Lx.isSpace ((p.1).headD ' ') = false := by decide
    rw [hall (m, t) hmem] at hhead
    exact absurd hhead (by simp)
  | none =>
    cases hs : Lx.lookupTok Lx.symPairs m with
    | some t =>
      have hmem := lx_lookupTok_mem _ _ _ hs
      have hall : ∀ p ∈ Lx.symPairs, Lx.isSpace ((p.1).headD ' ') = false := by decide
      rw [hall (m, t) hmem] at hhead
      exact absurd hhead (by simp)
    | none => rfl

theorem lx_matchWs_good (l m r : List Char) (h : Lx.matchWs l = some (m, r)) :
    l = m ++ r ∧ m ≠ [] ∧ m.all Lx.isSpace = true := by
  unfold Lx.matchWs at h
  cases hsp : l.span Lx.isSpace with
  | mk a b =>
    rw [hsp] at h
    have hs := lx_span_split Lx.isSpace l a b hsp
    cases a with
    | nil => exact absurd h (by simp)
    | cons c cs =>
      rw [Option.some.injEq, Prod.mk.injEq] at h
      obtain ⟨rfl, rfl⟩ := h
      exact ⟨hs.1, by simp, hs.2⟩

theorem lx_matchLineComment_good (l m r : List Char)
    (h : Lx.matchLineComment l = some (m, r)) :
    l = m ++ r ∧ m ≠ [] ∧ Lx.isSpace (m.headD ' ') = false := by
  rw [Lx.matchLineComment.eq_def] at h
  split at h
  · rw [Option.some.injEq, Prod.mk.injEq] at h
    obtain ⟨rfl, rfl⟩ := h
    refine ⟨?_, by simp, rfl⟩
    simp [List.takeWhile_append_dropWhile]
  · exact absurd h (by simp)

theorem lx_matchCharLit_good (l m r : List Char)
    (h : Lx.matchCharLit l = some (m, r)) :
    l = m ++ r ∧ m ≠ [] ∧ Lx.isSpace (m.headD ' ') = false := by
  rw [Lx.matchCharLit.eq_def] at h
  split at h
  · split_ifs at h with h1 h2
    · rw [Option.some.injEq, Prod.mk.injEq] at h
      obtain ⟨rfl, rfl⟩ := h
      subst h2
      exact ⟨rfl, by simp, rfl⟩
  · split_ifs at h with h1 h2
    · rw [Option.some.injEq, Prod.mk.injEq] at h
      obtain ⟨rfl, rfl⟩ := h
      subst h2
      exact ⟨rfl, by simp, rfl⟩
  · exact absurd h (by simp)

theorem lx_scanStr_split : ∀ (s m r : List Char), Lx.scanStr s = some (m, r) →
    s = m ++ r ∧ m ≠ [] := by
  intro s
  induction s using Lx.scanStr.induct with
  | case1 =>
    intro m r h
    exact absurd h (by simp [Lx.scanStr])
  | case2 rest2 =>
    intro m r h
    unfold Lx.scanStr at h
    simp only [reduceIte, Option.some.injEq, Prod.mk.injEq] at h
    obtain ⟨rfl, rfl⟩ := h
    exact ⟨rfl, by simp⟩
  | case3 hq =>
    intro m r h
    exact absurd h (by simp [Lx.scanStr])
  | case4 rest2 hq =>
    intro m r h
    exact absurd h (by simp [Lx.scanStr])
  | case5 c2 rest2 hn m1 r1 hs hq ih =>
    intro m r h
    unfold Lx.scanStr at h
    simp only [reduceIte, if_neg hn, hs, Option.some.injEq, Prod.mk.injEq] at h
    obtain ⟨rfl, rfl⟩ := h
    obtain ⟨he, _⟩ := ih m1 r1 hs
    exact ⟨by rw [he]; rfl, by simp⟩
  | case6 c2 rest2 hn hnone hq ih =>
    intro m r h
    unfold Lx.scanStr at h
    simp [if_neg hn, hnone] at h
  | case7 c2 rest2 h1 h2 m1 r1 hs ih =>
    intro m r h
    unfold Lx.scanStr at h
    simp only [reduceIte, if_neg h1, if_neg h2, hs, Option.some.injEq, Prod.mk.injEq] at h
    obtain ⟨rfl, rfl⟩ := h
    obtain ⟨he, _⟩ := ih m1 r1 hs
    exact ⟨by rw [he]; rfl, by simp⟩
  | case8 c2 rest2 h1 h2 hnone ih =>
    intro m r h
    unfold Lx.scanStr at h
    simp [if_neg h1, if_neg h2, hnone] at h

theorem lx_matchStringLit_good (l m r : List Char)
    (h : Lx.matchStringLit l = some (m, r)) :
    l = m ++ r ∧ m ≠ [] ∧ Lx.isSpace (m.headD ' ') = false := by
  rw [Lx.matchStringLit.eq_def] at h
  split at h
  · cases hs : Lx.scanStr _ with
    | none =>
      rw [hs] at h
      exact absurd h (by simp)
    | some p =>
      obtain ⟨m1, r1⟩ := p
      rw [hs] at h
      rw [Option.some.injEq, Prod.mk.injEq] at h
      obtain ⟨rfl, rfl⟩ := h
      obtain ⟨he, _⟩ := lx_scanStr_split _ m1 r1 hs
      exact ⟨by rw [he]; rfl, by simp, rfl⟩
  · exact absurd h (by simp)

theorem lx_kwTry_good : ∀ (ks : List (List Char)) (l m r : List Char),
    Lx.kwTry ks l = some (m, r) → m ∈ ks ∧ l = m ++ r := by
  intro ks
  induction ks with
  | nil => intro l m r h; exact absurd h (by simp [Lx.kwTry])
  | cons k ks ih =>
    intro l m r h
    rw [Lx.kwTry] at h
    by_cases hsw : Lx.startsWith k l = true
    · rw [if_pos hsw] at h
      cases hdrop : l.drop k.length with
      | nil =>
        rw [hdrop] at h
        rw [Option.some.injEq, Prod.mk.injEq] at h
        obtain ⟨rfl, rfl⟩ := h
        refine ⟨List.mem_cons_self _ _, ?_⟩
        have hthis := lx_startsWith_drop k l hsw
        rw [hdrop] at hthis
        exact hthis
      | cons c r2 =>
        rw [hdrop] at h
        dsimp only at h
        by_cases hw : Lx.isWordChar c = true
        · rw [if_pos hw] at h
          obtain ⟨hm, he⟩ := ih l m r h
          exact ⟨List.mem_cons_of_mem _ hm, he⟩
        · rw [if_neg hw] at h
          rw [Option.some.injEq, Prod.mk.injEq] at h
          obtain ⟨rfl, rfl⟩ := h
          refine ⟨List.mem_cons_self _ _, ?_⟩
          have hthis := lx_startsWith_drop k l hsw
          rw [hdrop] at hthis
          exact hthis
    · rw [if_neg hsw] at h
      obtain ⟨hm, he⟩ := ih l m r h
      exact ⟨List.mem_cons_of_mem _ hm, he⟩

theorem lx_matchKw_good (prev : Option Char) (l m r : List Char)
    (h : Lx.matchKw prev l = some (m, r)) :
    l = m ++ r ∧ m ≠ [] ∧ Lx.isSpace (m.headD ' ') = false := by
  unfold Lx.matchKw at h
  dsimp only at h
  split_ifs at h with hb
  obtain ⟨hm, he⟩ := lx_kwTry_good Lx.kwList l m r h
  have hall : ∀ k ∈ Lx.kwList, ¬ k = [] ∧ Lx.isSpace (k.headD ' ') = false := by decide
  exact ⟨he, (hall m hm).1, (hall m hm).2⟩

theorem lx_identStart_word (c : Char) (h : Lx.isIdentStart c = true) :
    Lx.isWordChar c = true := by
  unfold Lx.isIdentStart at h
  unfold Lx.isWordChar
  rw [Bool.or_eq_true] at h
  rcases h with h | h
  · simp [h]
  · simp [h]

theorem lx_identStart_not_space (c : Char) (h : Lx.isIdentStart c = true) :
    Lx.isSpace c = false := by
  rcases hs : Lx.isSpace c with _ | _
  · rfl
  · exfalso
    unfold Lx.isSpace at hs
    simp only [decide_eq_true_eq, List.mem_cons, List.not_mem_nil, or_false] at hs
    rcases hs with h1 | h1 | h1 | h1 | h1 | h1 <;> subst h1 <;> exact absurd h (by decide)

theorem lx_digit_not_space (c : Char) (h : Lx.isDigit c = true) :
    Lx.isSpace c = false := by
  rcases hs : Lx.isSpace c with _ | _
  · rfl
  · exfalso
    unfold Lx.isSpace at hs
    simp only [decide_eq_true_eq, List.mem_cons, List.not_mem_nil, or_false] at hs
    rcases hs with h1 | h1 | h1 | h1 | h1 | h1 <;> subst h1 <;> exact absurd h (by decide)

theorem lx_matchMacro_good (l m r : List Char)
    (h : Lx.matchMacro l = some (m, r)) :
    l = m ++ r ∧ m ≠ [] ∧ Lx.isSpace (m.headD ' ') = false := by
  rw [Lx.matchMacro.eq_def] at h
  split at h
  · exact absurd h (by simp)
  · rename_i c cs
    split_ifs at h with hid
    split at h
    · next a b heq =>
        rw [Option.some.injEq, Prod.mk.injEq] at h
        obtain ⟨rfl, rfl⟩ := h
        have hsp := lx_span_split Lx.isWordChar (c :: cs) a ('!' :: b) heq
        have ha : ∃ xs, a = c :: xs := by
          rw [List.span_eq_take_drop, Prod.mk.injEq] at heq
          refine ⟨List.takeWhile Lx.isWordChar cs, ?_⟩
          rw [← heq.1, List.takeWhile_cons, if_pos (lx_identStart_word c hid)]
        obtain ⟨xs, rfl⟩ := ha
        refine ⟨?_, by simp, ?_⟩
        · rw [hsp.1]
          simp
        · simp only [List.cons_append, List.headD_cons]
          exact lx_identStart_not_space c hid
    · exact absurd h (by simp)

theorem lx_matchIdent_good (l m r : List Char)
    (h : Lx.matchIdent l = some (m, r)) :
    l = m ++ r ∧ m ≠ [] ∧ Lx.isSpace (m.headD ' ') = false := by
  rw [Lx.matchIdent.eq_def] at h
  split at h
  · exact absurd h (by simp)
  · rename_i c cs
    split_ifs at h with hid
    rw [Option.some.injEq, Prod.mk.injEq] at h
    obtain ⟨rfl, rfl⟩ := h
    cases hsp : (c :: cs).span Lx.isWordChar with
    | mk a b =>
      have hsp2 := lx_span_split Lx.isWordChar (c :: cs) a b hsp
      have ha : ∃ xs, a = c :: xs := by
        rw [List.span_eq_take_drop, Prod.mk.injEq] at hsp
        refine ⟨List.takeWhile Lx.isWordChar cs, ?_⟩
        rw [← hsp.1, List.takeWhile_cons, if_pos (lx_identStart_word c hid)]
      refine ⟨?_, ?_, ?_⟩
      · dsimp only
        exact hsp2.1
      · dsimp only
        obtain ⟨xs, rfl⟩ := ha
        simp
      · dsimp only
        obtain ⟨xs, rfl⟩ := ha
        simp only [List.headD_cons]
        exact lx_identStart_not_space c hid

theorem lx_matchInt_good (l m r : List Char)
    (h : Lx.matchInt l = some (m, r)) :
    l = m ++ r ∧ m ≠ [] ∧ Lx.isSpace (m.headD ' ') = false := by
  unfold Lx.matchInt at h
  cases hsp : l.span Lx.isDigit with
  | mk a b =>
    rw [hsp] at h
    cases a with
    | nil => exact absurd h (by simp)
    | cons c cs =>
      rw [Option.some.injEq, Prod.mk.injEq] at h
      obtain ⟨rfl, rfl⟩ := h
      have hsp2 := lx_span_split Lx.isDigit l (c :: cs) b hsp
      have hc : Lx.isDigit c = true := by
        have := hsp2.2
        rw [List.all_cons, Bool.and_eq_true] at this
        exact this.1
      exact ⟨hsp2.1, by simp, lx_digit_not_space c hc⟩

theorem lx_tryTwo_good : ∀ (os : List (List Char)) (l m r : List Char),
    Lx.tryTwo os l = some (m, r) → m ∈ os ∧ l = m ++ r := by
  intro os
  induction os with
  | nil => intro l m r h; exact absurd h (by simp [Lx.tryTwo])
  | cons o os ih =>
    intro l m r h
    rw [Lx.tryTwo] at h
    by_cases hsw : Lx.startsWith o l = true
    · rw [if_pos hsw] at h
      rw [Option.some.injEq, Prod.mk.injEq] at h
      obtain ⟨rfl, rfl⟩ := h
      exact ⟨List.mem_cons_self _ _, lx_startsWith_drop o l hsw⟩
    · rw [if_neg hsw] at h
      obtain ⟨hm, he⟩ := ih l m r h
      exact ⟨List.mem_cons_of_mem _ hm, he⟩

theorem lx_matchOps_good (l m r : List Char)
    (h : Lx.matchOps l = some (m, r)) :
    l = m ++ r ∧ m ≠ [] ∧ Lx.isSpace (m.headD ' ') = false := by
  unfold Lx.matchOps at h
  cases ht : Lx.tryTwo Lx.opsTwo l with
  | some p =>
    obtain ⟨m1, r1⟩ := p
    rw [ht] at h
    rw [Option.some.injEq, Prod.mk.injEq] at h
    obtain ⟨rfl, rfl⟩ := h
    obtain ⟨hm, he⟩ := lx_tryTwo_good Lx.opsTwo l m1 r1 ht
    have hall : ∀ k ∈ Lx.opsTwo, ¬ k = [] ∧ Lx.isSpace (k.headD ' ') = false := by decide
    exact ⟨he, (hall m1 hm).1, (hall m1 hm).2⟩
  | none =>
    rw [ht] at h
    cases l with
    | nil => exact absurd h (by simp)
    | cons c cs =>
      dsimp only at h
      split_ifs at h with hc
      rw [Option.some.injEq, Prod.mk.injEq] at h
      obtain ⟨rfl, rfl⟩ := h
      have hall : ∀ c ∈ Lx.opSingles, Lx.isSpace c = false := by decide
      exact ⟨rfl, by simp, hall c hc⟩

theorem lx_matchPunct_good (l m r : List Char)
    (h : Lx.matchPunct l = some (m, r)) :
    l = m ++ r ∧ m ≠ [] ∧ Lx.isSpace (m.headD ' ') = false := by
  rw [Lx.matchPunct.eq_def] at h
  split at h
  · exact absurd h (by simp)
  · rename_i c cs
    split_ifs at h with hc
    rw [Option.some.injEq, Prod.mk.injEq] at h
    obtain ⟨rfl, rfl⟩ := h
    have hall : ∀ c ∈ Lx.punctChars, Lx.isSpace c = false := by decide
    exact ⟨rfl, by simp, hall c hc⟩

theorem lx_matchHash_good (l m r : List Char)
    (h : Lx.matchHash l = some (m, r)) :
    l = m ++ r ∧ m ≠ [] ∧ Lx.isSpace (m.headD ' ') = false := by
  rw [Lx.matchHash.eq_def] at h
  split at h
  · rw [Option.some.injEq, Prod.mk.injEq] at h
    obtain ⟨rfl, rfl⟩ := h
    exact ⟨rfl, by simp, rfl⟩
  · exact absurd h (by simp)

theorem lx_matchFloat_good (l m r : List Char)
    (h : Lx.matchFloat l = some (m, r)) :
    l = m ++ r ∧ m ≠ [] ∧ Lx.isSpace (m.headD ' ') = false := by
  unfold Lx.matchFloat at h
  split at h
  · exact absurd h (by simp)
  · rename_i x1 d1 r2 hne heq
    obtain ⟨hl1, hall1⟩ := lx_span_split Lx.isDigit l d1 ('.' :: r2) heq
    cases d1 with
    | nil => exact absurd rfl hne
    | cons c cs =>
      have hc : Lx.isDigit c = true := by
        rw [List.all_cons, Bool.and_eq_true] at hall1
        exact hall1.1
      split at h
      · exact absurd h (by simp)
      · rename_i x2 d2 r3 hne2 heq2
        have hr2 := (lx_span_split Lx.isDigit r2 d2 r3 heq2).1
        dsimp only at h
        split at h
        · rw [Option.some.injEq, Prod.mk.injEq] at h
          obtain ⟨rfl, rfl⟩ := h
          refine ⟨?_, by simp, ?_⟩
          · rw [hl1, hr2]
            simp
          · simp only [List.cons_append, List.headD_cons]
            exact lx_digit_not_space c hc
        · rename_i e r4
          split_ifs at h with he
          · split at h
            · rw [Option.some.injEq, Prod.mk.injEq] at h
              obtain ⟨rfl, rfl⟩ := h
              refine ⟨?_, by simp, ?_⟩
              · rw [hl1, hr2]
                simp
              · simp only [List.cons_append, List.headD_cons]
                exact lx_digit_not_space c hc
            · rename_i s r5
              split_ifs at h with hsgn
              · split at h
                · rw [Option.some.injEq, Prod.mk.injEq] at h
                  obtain ⟨rfl, rfl⟩ := h
                  refine ⟨?_, by simp, ?_⟩
                  · rw [hl1, hr2]
                    simp
                  · simp only [List.cons_append, List.headD_cons]
                    exact lx_digit_not_space c hc
                · rename_i x3 d3 r6 hne3 heq3
                  have hr5 := (lx_span_split Lx.isDigit r5 d3 r6 heq3).1
                  rw [Option.some.injEq, Prod.mk.injEq] at h
                  obtain ⟨rfl, rfl⟩ := h
                  refine ⟨?_, by simp, ?_⟩
                  · rw [hl1, hr2, hr5]
                    simp
                  · simp only [List.cons_append, List.headD_cons]
                    exact lx_digit_not_space c hc
              · split at h
                · rw [Option.some.injEq, Prod.mk.injEq] at h
                  obtain ⟨rfl, rfl⟩ := h
                  refine ⟨?_, by simp, ?_⟩
                  · rw [hl1, hr2]
                    simp
                  · simp only [List.cons_append, List.headD_cons]
                    exact lx_digit_not_space c hc
                · rename_i x3 d3 r6 hne3 heq3
                  have hr4 := (lx_span_split Lx.isDigit (s :: r5) d3 r6 heq3).1
                  rw [Option.some.injEq, Prod.mk.injEq] at h
                  obtain ⟨rfl, rfl⟩ := h
                  refine ⟨?_, by simp, ?_⟩
                  · rw [hl1, hr2, hr4]
                    simp
                  · simp only [List.cons_append, List.headD_cons]
                    exact lx_digit_not_space c hc
          · rw [Option.some.injEq, Prod.mk.injEq] at h
            obtain ⟨rfl, rfl⟩ := h
            refine ⟨?_, by simp, ?_⟩
            · rw [hl1, hr2]
              simp
            · simp only [List.cons_append, List.headD_cons]
              exact lx_digit_not_space c hc
  · exact absurd h (by simp)

theorem lx_preMatchers_good (l m r : List Char) (t : Lx.TokT)
    (h : Lx.preMatchers l = some (m, r, t)) : LxGood l m r t := by
  unfold Lx.preMatchers at h
  cases hw : Lx.matchWs l with
  | some p =>
    obtain ⟨m1, r1⟩ := p
    rw [hw] at h
    simp only [Option.map_some', Option.some_orElse, Option.some.injEq, Prod.mk.injEq] at h
    obtain ⟨rfl, rfl, rfl⟩ := h
    obtain ⟨he, hne, hsp⟩ := lx_matchWs_good l m1 r1 hw
    exact ⟨he, hne, Or.inl ⟨lx_classify_space m1 hne hsp, hsp⟩⟩
  | none =>
    rw [hw] at h
    simp only [Option.map_none', Option.none_orElse] at h
    cases hl2 : Lx.matchLineComment l with
    | some p =>
      obtain ⟨m1, r1⟩ := p
      rw [hl2] at h
      simp only [Option.map_some', Option.some.injEq, Prod.mk.injEq] at h
      obtain ⟨rfl, rfl, rfl⟩ := h
      obtain ⟨he, hne, hsp⟩ := lx_matchLineComment_good l m1 r1 hl2
      exact ⟨he, hne, Or.inr hsp⟩
    | none =>
      rw [hl2] at h
      simp at h

theorem lx_postMatchers_good (prev : Option Char) (l m r : List Char) (t : Lx.TokT)
    (h : Lx.postMatchers prev l = some (m, r, t)) : LxGood l m r t := by
  unfold Lx.postMatchers at h
  cases h1 : Lx.matchCharLit l with
  | some p =>
    obtain ⟨m1, r1⟩ := p
    rw [h1] at h
    simp only [Option.map_some', Option.some_orElse, Option.some.injEq, Prod.mk.injEq] at h
    obtain ⟨rfl, rfl, rfl⟩ := h
    obtain ⟨he, hne, hsp⟩ := lx_matchCharLit_good l m1 r1 h1
    exact ⟨he, hne, Or.inr hsp⟩
  | none =>
  rw [h1] at h
  simp only [Option.map_none', Option.none_orElse] at h
  cases h2 : Lx.matchStringLit l with
  | some p =>
    obtain ⟨m1, r1⟩ := p
    rw [h2] at h
    simp only [Option.map_some', Option.some_orElse, Option.some.injEq, Prod.mk.injEq] at h
    obtain ⟨rfl, rfl, rfl⟩ := h
    obtain ⟨he, hne, hsp⟩ := lx_matchStringLit_good l m1 r1 h2
    exact ⟨he, hne, Or.inr hsp⟩
  | none =>
  rw [h2] at h
  simp only [Option.map_none', Option.none_orElse] at h
  cases h3 : Lx.matchKw prev l with
  | some p =>
    obtain ⟨m1, r1⟩ := p
    rw [h3] at h
    simp only [Option.map_some', Option.some_orElse, Option.some.injEq, Prod.mk.injEq] at h
    obtain ⟨rfl, rfl, rfl⟩ := h
    obtain ⟨he, hne, hsp⟩ := lx_matchKw_good prev l m1 r1 h3
    exact ⟨he, hne, Or.inr hsp⟩
  | none =>
  rw [h3] at h
  simp only [Option.map_none', Option.none_orElse] at h
  cases h4 : Lx.matchMacro l with
  | some p =>
    obtain ⟨m1, r1⟩ := p
    rw [h4] at h
    simp only [Option.map_some', Option.some_orElse, Option.some.injEq, Prod.mk.injEq] at h
    obtain ⟨rfl, rfl, rfl⟩ := h
    obtain ⟨he, hne, hsp⟩ := lx_matchMacro_good l m1 r1 h4
    exact ⟨he, hne, Or.inr hsp⟩
  | none =>
  rw [h4] at h
  simp only [Option.map_none', Option.none_orElse] at h
  cases h5 : Lx.matchIdent l with
  | some p =>
    obtain ⟨m1, r1⟩ := p
    rw [h5] at h
    simp only [Option.map_some', Option.some_orElse, Option.some.injEq, Prod.mk.injEq] at h
    obtain ⟨rfl, rfl, rfl⟩ := h
    obtain ⟨he, hne, hsp⟩ := lx_matchIdent_good l m1 r1 h5
    exact ⟨he, hne, Or.inr hsp⟩
  | none =>
  rw [h5] at h
  simp only [Option.map_none', Option.none_orElse] at h
  cases h6 : Lx.matchFloat l with
  | some p =>
    obtain ⟨m1, r1⟩ := p
    rw [h6] at h
    simp only [Option.map_some', Option.some_orElse, Option.some.injEq, Prod.mk.injEq] at h
    obtain ⟨rfl, rfl, rfl⟩ := h
    obtain ⟨he, hne, hsp⟩ := lx_matchFloat_good l m1 r1 h6
    exact ⟨he, hne, Or.inr hsp⟩
  | none =>
  rw [h6] at h
  simp only [Option.map_none', Option.none_orElse] at h
  cases h7 : Lx.matchInt l with
  | some p =>
    obtain ⟨m1, r1⟩ := p
    rw [h7] at h
    simp only [Option.map_some', Option.some_orElse, Option.some.injEq, Prod.mk.injEq] at h
    obtain ⟨rfl, rfl, rfl⟩ := h
    obtain ⟨he, hne, hsp⟩ := lx_matchInt_good l m1 r1 h7
    exact ⟨he, hne, Or.inr hsp⟩
  | none =>
  rw [h7] at h
  simp only [Option.map_none', Option.none_orElse] at h
  cases h8 : Lx.matchOps l with
  | some p =>
    obtain ⟨m1, r1⟩ := p
    rw [h8] at h
    simp only [Option.map_some', Option.some_orElse, Option.some.injEq, Prod.mk.injEq] at h
    obtain ⟨rfl, rfl, rfl⟩ := h
    obtain ⟨he, hne, hsp⟩ := lx_matchOps_good l m1 r1 h8
    exact ⟨he, hne, Or.inr hsp⟩
  | none =>
  rw [h8] at h
  simp only [Option.map_none', Option.none_orElse] at h
  cases h9 : Lx.matchPunct l with
  | some p =>
    obtain ⟨m1, r1⟩ := p
    rw [h9] at h
    simp only [Option.map_some', Option.some_orElse, Option.some.injEq, Prod.mk.injEq] at h
    obtain ⟨rfl, rfl, rfl⟩ := h
    obtain ⟨he, hne, hsp⟩ := lx_matchPunct_good l m1 r1 h9
    exact ⟨he, hne, Or.inr hsp⟩
  | none =>
  rw [h9] at h
  simp only [Option.map_none', Option.none_orElse] at h
  cases h10 : Lx.matchHash l with
  | some p =>
    obtain ⟨m1, r1⟩ := p
    rw [h10] at h
    simp only [Option.map_some', Option.some.injEq, Prod.mk.injEq] at h
    obtain ⟨rfl, rfl, rfl⟩ := h
    obtain ⟨he, hne, hsp⟩ := lx_matchHash_good l m1 r1 h10
    exact ⟨he, hne, Or.inr hsp⟩
  | none =>
  rw [h10] at h
  simp at h

theorem lx_dropWhile_all_append (m r : List Char) (hm : m.all Lx.isSpace = true) :
    (m ++ r).dropWhile Lx.isSpace = r.dropWhile Lx.isSpace := by
  induction m with
  | nil => rfl
  | cons c cs ih =>
    rw [List.all_cons, Bool.and_eq_true] at hm
    rw [List.cons_append, List.dropWhile_cons, if_pos hm.1]
    exact ih hm.2

theorem lx_covers_skip (cs : List (List Char)) (m r : List Char)
    (hm : m.all Lx.isSpace = true) :
    Lx.coversAux cs (m ++ r) = Lx.coversAux cs r := by
  cases cs with
  | nil =>
    show (m ++ r).all Lx.isSpace = r.all Lx.isSpace
    rw [List.all_append, hm, Bool.true_and]
  | cons c cs2 =>
    show (Lx.startsWith c ((m ++ r).dropWhile Lx.isSpace)
        && Lx.coversAux cs2 (((m ++ r).dropWhile Lx.isSpace).drop c.length))
      = (Lx.startsWith c (r.dropWhile Lx.isSpace)
        && Lx.coversAux cs2 ((r.dropWhile Lx.isSpace).drop c.length))
    rw [lx_dropWhile_all_append m r hm]

theorem lx_cover_tok_step (ts : List Lx.Tok) (m r : List Char) (t : Lx.TokT)
    (hm : m ≠ [])
    (hd : t = Lx.TokT.UNKNOWN ∧ m.all Lx.isSpace = true ∨ Lx.isSpace (m.headD ' ') = false)
    (hrec : Lx.coversAux (ts.map Lx.Tok.content) r = true) :
    Lx.coversAux
      (((if t = Lx.TokT.UNKNOWN ∧ m.all Lx.isSpace then ts else ⟨m, t⟩ :: ts)).map
        Lx.Tok.content) (m ++ r) = true := by
  split_ifs with hcond
  · rw [lx_covers_skip _ m r hcond.2]
    exact hrec
  · have hhead : Lx.isSpace (m.headD ' ') = false := by
      rcases hd with ⟨h1, h2⟩ | h2
      · exact absurd ⟨h1, h2⟩ hcond
      · exact h2
    cases m with
    | nil => exact absurd rfl hm
    | cons c cs =>
      rw [List.headD_cons] at hhead
      show (Lx.startsWith (c :: cs) (((c :: cs) ++ r).dropWhile Lx.isSpace)
          && Lx.coversAux (ts.map Lx.Tok.content)
              ((((c :: cs) ++ r).dropWhile Lx.isSpace).drop (c :: cs).length)) = true
      rw [List.cons_append, List.dropWhile_cons, if_neg (by rw [hhead]; exact fun hh => nomatch hh)]
      rw [← List.cons_append]
      rw [lx_startsWith_self (c :: cs) r, List.drop_left, hrec]
      rfl

theorem lx_preMatchers_none_head (c : Char) (cs : List Char)
    (h : Lx.preMatchers (c :: cs) = none) : Lx.isSpace c = false := by
  rcases hs : Lx.isSpace c with _ | _
  · rfl
  · exfalso
    unfold Lx.preMatchers at h
    cases hw : Lx.matchWs (c :: cs) with
    | some p => rw [hw] at h; simp at h
    | none =>
      unfold Lx.matchWs at hw
      rw [List.span_eq_take_drop, List.takeWhile_cons, if_pos hs] at hw
      simp at hw

/-- C4 (amended): on every line whose tokenization does not enter the
block-comment branch, the lexer covers the line exactly: concatenating the
content of the produced tokens in order, reinserting the skipped whitespace,
reconstructs the line byte-for-byte. -/
theorem c4_line_coverage (nextLines : List (List Char)) :
    ∀ (fuel : Nat) (prev : Option Char) (l : List Char),
      l.length < fuel →
      (Lx.tokenizeLineAux nextLines fuel prev l).2 = false →
      Lx.coversAux ((Lx.tokenizeLineAux nextLines fuel prev l).1.map Lx.Tok.content) l
        = true := by
  intro fuel
  induction fuel with
  | zero =>
    intro prev l hlen hflag
    exact absurd hlen (by omega)
  | succ fuel ih =>
    intro prev l hlen hflag
    cases l with
    | nil => rfl
    | cons c cs =>
      cases hpm : Lx.preMatchers (c :: cs) with
      | some trip =>
        obtain ⟨m, rr, t⟩ := trip
        obtain ⟨he, hne, hd⟩ := lx_preMatchers_good (c :: cs) m rr t hpm
        unfold Lx.tokenizeLineAux at hflag ⊢
        rw [hpm] at hflag ⊢
        dsimp only at hflag ⊢
        have hlenr : rr.length < fuel := by
          have h1 : (c :: cs).length = m.length + rr.length := by rw [he]; simp
          have h2 : 0 < m.length := List.length_pos.mpr hne
          simp only [List.length_cons] at h1 hlen
          omega
        have hrec := ih m.getLast? rr hlenr hflag
        rw [he]
        exact lx_cover_tok_step _ m rr t hne hd hrec
      | none =>
        by_cases hbc : Lx.startsWith ("/*".toList) (c :: cs) = true
        · exfalso
          unfold Lx.tokenizeLineAux at hflag
          rw [hpm] at hflag
          dsimp only at hflag
          rw [if_pos hbc] at hflag
          exact absurd hflag (by simp)
        · cases hpost : Lx.postMatchers prev (c :: cs) with
          | some trip =>
            obtain ⟨m, rr, t⟩ := trip
            obtain ⟨he, hne, hd⟩ := lx_postMatchers_good prev (c :: cs) m rr t hpost
            unfold Lx.tokenizeLineAux at hflag ⊢
            rw [hpm] at hflag ⊢
            dsimp only at hflag ⊢
            rw [if_neg hbc] at hflag ⊢
            rw [hpost] at hflag ⊢
            dsimp only at hflag ⊢
            have hlenr : rr.length < fuel := by
              have h1 : (c :: cs).length = m.length + rr.length := by rw [he]; simp
              have h2 : 0 < m.length := List.length_pos.mpr hne
              simp only [List.length_cons] at h1 hlen
              omega
            have hrec := ih m.getLast? rr hlenr hflag
            rw [he]
            exact lx_cover_tok_step _ m rr t hne hd hrec
          | none =>
            unfold Lx.tokenizeLineAux at hflag ⊢
            rw [hpm] at hflag ⊢
            dsimp only at hflag ⊢
            rw [if_neg hbc] at hflag ⊢
            rw [hpost] at hflag ⊢
            dsimp only at hflag ⊢
            have hc := lx_preMatchers_none_head c cs hpm
            have hlenr : cs.length < fuel := by
              simp only [List.length_cons] at hlen
              omega
            have hrec := ih (some c) cs hlenr hflag
            have hstep := lx_cover_tok_step
              (Lx.tokenizeLineAux nextLines fuel (some c) cs).1 [c] cs Lx.TokT.UNKNOWN
              (by simp)
              (Or.inr (by rw [List.headD_cons]; exact hc))
              hrec
            rw [if_neg (fun hh => by
              rw [List.all_cons, List.all_nil, Bool.and_true, hc] at hh
              exact nomatch hh.2)] at hstep
            exact hstep

/-- Witness for C4 on the line let x=1. -/
theorem c4_line_coverage_witness :
    ("let x=1".toList.length < 8
      ∧ (Lx.tokenizeLineAux [] 8 none "let x=1".toList).2 = false)
    ∧ Lx.coversAux ((Lx.tokenizeLineAux [] 8 none "let x=1".toList).1.map Lx.Tok.content)
        "let x=1".toList = true :=
  ⟨⟨by decide, by decide⟩,
   c4_line_coverage [] 8 none "let x=1".toList (by decide) (by decide)⟩

/-- C4 counterexample: on the line /**/x the token stream has no UNKNOWN token
and the success flag is true, yet the early return of the block-comment branch
drops the trailing x, so the token contents do not reconstruct the line. -/
theorem c4_counterexample :
    (Lx.getLex [['/', '*', '*', '/', 'x']]).2 = true
    ∧ (∀ t2 ∈ (Lx.getLex [['/', '*', '*', '/', 'x']]).1, ¬ t2.prop = Lx.TokT.UNKNOWN)
    ∧ Lx.coversAux
        ((Lx.tokenizeLineAux [] 6 none ['/', '*', '*', '/', 'x']).1.map Lx.Tok.content)
        ['/', '*', '*', '/', 'x'] = false := by
  decide
